import Mathlib

/-!
# ScriptSync worker — verification of the clip pipeline, tagger and matcher

Shallow embedding of the ScriptSync worker's core logic:

* `Tagger` — `src/worker/src/tagger.js`: representative-frame selection and
  the vision-tagging retry loop.
* `Matcher` — the B-roll matching module (embedding provisioning, cosine
  similarity, top-K match computation).
* `Pipeline` — the video-processing module (`processClip`, duration cap,
  error-state transitions, temp-dir cleanup).

Frame files `frame_0001.jpg`, `frame_0002.jpg`, … are identified by their
1-based index (the zero-padded path rendering is injective in the index, so
path membership tests coincide with index membership tests).  External
collaborators (object store, ffmpeg, the vision and embedding models, the
relational store's success/failure) are supplied as explicit oracles.
JavaScript numbers are modelled as `ℚ` (durations) and `ℝ` (embedding
coordinates); `String.prototype.trim` and `String.prototype.includes` are
modelled by structurally recursive functions on the character list.
-/

/-- JS `String.prototype.trim`: strip leading and trailing whitespace.
Structurally recursive (kernel-reducible) model of trimming. -/
def jsTrim (s : String) : String :=
  ⟨((s.data.dropWhile Char.isWhitespace).reverse.dropWhile Char.isWhitespace).reverse⟩

/-- Does `hay` start with `needle`? (helper for the substring test). -/
def startsWithL : List Char → List Char → Bool
  | [], _ => true
  | _ :: _, [] => false
  | a :: as, b :: bs => a == b && startsWithL as bs

/-- JS `String.prototype.includes`: `containsSub needle hay` is true iff
`needle` occurs contiguously inside `hay`. -/
def containsSub (needle : List Char) : List Char → Bool
  | [] => startsWithL needle []
  | c :: rest => startsWithL needle (c :: rest) || containsSub needle rest

namespace Tagger

/-- `MAX_FRAMES_PER_CALL` from tagger.js. -/
def MAX_FRAMES_PER_CALL : Nat := 20

/-- `MAX_RETRIES` from tagger.js. -/
def MAX_RETRIES : Nat := 3

/-- `RETRY_DELAY_MS` from tagger.js. -/
def RETRY_DELAY_MS : Nat := 2000

/-- The stride walk of `selectRepresentativeFrames`:
`for (let i = 1; i <= frameCount && selected.length < MAX_FRAMES_PER_CALL; i += step)`,
pushing frame `i` when the file exists.  `ex i` is the `existsSync` oracle for
frame index `i`.  The walk performs at most `frameCount` iterations (the index
starts at 1 and grows by `step ≥ 1`), so `fuel = frameCount + 1` never runs out
before the loop condition fails; fuel makes the recursion structural. -/
def selectLoop (ex : Nat → Bool) (frameCount step : Nat) :
    Nat → Nat → List Nat → List Nat
  | 0, _, selected => selected
  | fuel + 1, i, selected =>
    if i ≤ frameCount ∧ selected.length < MAX_FRAMES_PER_CALL then
      selectLoop ex frameCount step fuel (i + step)
        (if ex i then selected ++ [i] else selected)
    else selected

/-- `selectRepresentativeFrames(framesDir, frameCount)` from tagger.js, with
frames identified by index.  After the stride walk, the last frame is pushed
when its file exists and it is not already selected. -/
def selectRepresentativeFrames (ex : Nat → Bool) (frameCount : Nat) : List Nat :=
  if frameCount = 0 then []
  else
    let step := max 1 (frameCount / MAX_FRAMES_PER_CALL)
    let selected := selectLoop ex frameCount step (frameCount + 1) 1 []
    if ex frameCount ∧ ¬ frameCount ∈ selected then selected ++ [frameCount]
    else selected

/-- The parsed/validated outcome of one successful model call. -/
structure TagResult where
  description : String
  tags : List String
  deriving DecidableEq

/-- An error thrown inside one attempt of the retry loop: an optional
HTTP-like status and a message. -/
structure TagError where
  status : Option Nat
  message : String
  deriving DecidableEq

/-- The auth/permission classification in `tagClip`'s catch:
`err.status === 401 || err.status === 403 ||
 err.message?.includes('invalid_api_key') || err.message?.includes('permission_error')`. -/
def isAuthError (e : TagError) : Bool :=
  e.status == some 401 || e.status == some 403 ||
  containsSub "invalid_api_key".data e.message.data ||
  containsSub "permission_error".data e.message.data

/-- Observable outcome of a `tagClip` run: how many model-call attempts were
made, which backoff sleeps were performed (in ms, in order), and the value
returned or the error finally raised. -/
structure TagRun where
  attempts : Nat
  sleeps : List Nat
  result : Except TagError TagResult

/-- The retry loop of `tagClip`: attempts are numbered from 1; a failed
attempt is retried after a sleep of `RETRY_DELAY_MS * 2^(attempt-1)` ms unless
it is auth-classified or it was the last allowed attempt, in which case the
loop breaks and the last error is raised.  `o attempt` is the oracle giving
attempt `attempt`'s outcome (model call + response validation).  The fuel is
structural; `tagClip` passes `MAX_RETRIES`, which is exact. -/
def tagLoop (o : Nat → Except TagError TagResult) : Nat → Nat → TagRun
  | 0, attempt => ⟨attempt, [], .error ⟨none, "Tagging failed after all retries"⟩⟩
  | fuel + 1, attempt =>
    match o attempt with
    | .ok r => ⟨attempt, [], .ok r⟩
    | .error e =>
      if isAuthError e ∨ attempt = MAX_RETRIES then ⟨attempt, [], .error e⟩
      else
        let rest := tagLoop o fuel (attempt + 1)
        ⟨rest.attempts, RETRY_DELAY_MS * 2 ^ (attempt - 1) :: rest.sleeps, rest.result⟩

/-- `tagClip(framesDir, frameCount)` from tagger.js: fail when the API key is
missing, fail when frame selection is empty, otherwise run the retry loop. -/
def tagClip (apiKeyPresent : Bool) (ex : Nat → Bool) (frameCount : Nat)
    (o : Nat → Except TagError TagResult) : TagRun :=
  if ¬ apiKeyPresent then
    ⟨0, [], .error ⟨none, "ANTHROPIC_API_KEY environment variable is not set"⟩⟩
  else if (selectRepresentativeFrames ex frameCount).isEmpty then
    ⟨0, [], .error ⟨none, "No frames available for tagging"⟩⟩
  else tagLoop o MAX_RETRIES 1

end Tagger

/-- C1.  Evaluation of the code at the failing input `frameCount = 21` with
every frame file present: the stride walk selects frames 1..20 (cap reached),
the unguarded last-frame push then appends frame 21, so the function returns
21 paths — exceeding the per-call cap of 20 the claim (and the function's own
doc comment) states.  The other two parts of the claim hold at this input:
the last frame appears exactly once and no index is selected twice. -/
theorem selectRepresentativeFrames_cap_violated_at_21 :
    (Tagger.selectRepresentativeFrames (fun _ => true) 21).length = 21 ∧
    ¬ (Tagger.selectRepresentativeFrames (fun _ => true) 21).length ≤
        Tagger.MAX_FRAMES_PER_CALL ∧
    (Tagger.selectRepresentativeFrames (fun _ => true) 21).count 21 = 1 ∧
    (Tagger.selectRepresentativeFrames (fun _ => true) 21).Nodup := by
  decide

/-- C3.  The tagging retry policy of `tagClip`, for any frame set with a
non-empty selection and the API key present:
(1) an auth/permission-classified failure on attempt 1 results in exactly one
attempt, no sleeps, and that error raised;
(2) transient failures on attempts 1 and 2 followed by success on attempt 3
result in exactly three attempts with sleeps 2000 ms then 4000 ms;
(3) when all three attempts fail (the first two non-auth), the last
encountered error is raised after three attempts. -/
theorem tagClip_retry_policy (ex : Nat → Bool) (frameCount : Nat)
    (hsel : (Tagger.selectRepresentativeFrames ex frameCount).isEmpty = false) :
    (∀ o e, o 1 = .error e → Tagger.isAuthError e = true →
      Tagger.tagClip true ex frameCount o = ⟨1, [], .error e⟩) ∧
    (∀ o e1 e2 r, o 1 = .error e1 → Tagger.isAuthError e1 = false →
      o 2 = .error e2 → Tagger.isAuthError e2 = false →
      o 3 = .ok r →
      Tagger.tagClip true ex frameCount o = ⟨3, [2000, 4000], .ok r⟩) ∧
    (∀ o e1 e2 e3, o 1 = .error e1 → Tagger.isAuthError e1 = false →
      o 2 = .error e2 → Tagger.isAuthError e2 = false →
      o 3 = .error e3 →
      Tagger.tagClip true ex frameCount o = ⟨3, [2000, 4000], .error e3⟩) := by
  refine ⟨?_, ?_, ?_⟩
  · intro o e h1 hauth
    simp [Tagger.tagClip, hsel, Tagger.tagLoop, Tagger.MAX_RETRIES, h1, hauth]
  · intro o e1 e2 r h1 hauth1 h2 hauth2 h3
    simp [Tagger.tagClip, hsel, Tagger.tagLoop, Tagger.MAX_RETRIES,
      h1, hauth1, h2, hauth2, h3, Tagger.RETRY_DELAY_MS]
  · intro o e1 e2 e3 h1 hauth1 h2 hauth2 h3
    simp [Tagger.tagClip, hsel, Tagger.tagLoop, Tagger.MAX_RETRIES,
      h1, hauth1, h2, hauth2, h3, Tagger.RETRY_DELAY_MS]

/-- Witness for C3 at a concrete frame set and concrete attempt oracles. -/
theorem tagClip_retry_policy_witness :
    (Tagger.tagClip true (fun _ => true) 5
      (fun _ => .error ⟨some 401, "auth"⟩) = ⟨1, [], .error ⟨some 401, "auth"⟩⟩) ∧
    (Tagger.tagClip true (fun _ => true) 5
      (fun n => if n = 3 then .ok ⟨"desc", ["t"]⟩ else .error ⟨some 500, "boom"⟩) =
      ⟨3, [2000, 4000], .ok ⟨"desc", ["t"]⟩⟩) ∧
    (Tagger.tagClip true (fun _ => true) 5
      (fun n => .error ⟨some 500, toString n⟩) =
      ⟨3, [2000, 4000], .error ⟨some 500, "3"⟩⟩) := by
  have hsel : (Tagger.selectRepresentativeFrames (fun _ => true) 5).isEmpty = false := by
    decide
  have h := tagClip_retry_policy (fun _ => true) 5 hsel
  refine ⟨h.1 _ _ rfl (by decide), h.2.1 _ _ _ _ rfl (by decide) rfl (by decide) rfl,
    h.2.2 _ _ _ _ rfl (by decide) rfl (by decide) rfl⟩

namespace Matcher

/-- The running sum `dot += a[i] * b[i]` of `cosineSimilarity` (also used with
`a = b` for the squared-norm sums `normA`, `normB`). -/
noncomputable def sumProd : List ℝ → List ℝ → ℝ
  | x :: xs, y :: ys => x * y + sumProd xs ys
  | _, _ => 0

/-- `cosineSimilarity(a, b)` from the matching module.  The length check
throws (`none`); otherwise the dot product and the two Euclidean norms are
accumulated, and if either norm is zero the result is 0, else
`dot / (normA * normB)`. -/
noncomputable def cosineSimilarity (a b : List ℝ) : Option ℝ :=
  if a.length ≠ b.length then none
  else
    let dot := sumProd a b
    let normA := Real.sqrt (sumProd a a)
    let normB := Real.sqrt (sumProd b b)
    if normA = 0 ∨ normB = 0 then some 0 else some (dot / (normA * normB))

theorem sumProd_comm (a b : List ℝ) : sumProd a b = sumProd b a := by
  induction a generalizing b with
  | nil => cases b <;> simp [sumProd]
  | cons x xs ih =>
    cases b with
    | nil => simp [sumProd]
    | cons y ys => simp [sumProd, ih, mul_comm]

theorem sumProd_self_nonneg (a : List ℝ) : 0 ≤ sumProd a a := by
  induction a with
  | nil => simp [sumProd]
  | cons x xs ih => simpa [sumProd] using add_nonneg (mul_self_nonneg x) ih

theorem sumProd_self_pos (a : List ℝ) (x : ℝ) (hx : x ∈ a) (hxne : x ≠ 0) :
    0 < sumProd a a := by
  induction a with
  | nil => cases hx
  | cons y ys ih =>
    rcases List.mem_cons.mp hx with h | h
    · subst h
      simpa [sumProd] using
        add_pos_of_pos_of_nonneg (mul_self_pos.mpr hxne) (sumProd_self_nonneg ys)
    · simpa [sumProd] using
        add_pos_of_nonneg_of_pos (mul_self_nonneg y) (ih h)

theorem cosineSimilarity_comm (a b : List ℝ) :
    cosineSimilarity a b = cosineSimilarity b a := by
  unfold cosineSimilarity
  rcases eq_or_ne a.length b.length with h | h
  · have hL : ¬ a.length ≠ b.length := by simp [h]
    have hR : ¬ b.length ≠ a.length := by simp [h]
    rw [if_neg hL, if_neg hR]
    by_cases h0 : Real.sqrt (sumProd a a) = 0 ∨ Real.sqrt (sumProd b b) = 0
    · rw [if_pos h0, if_pos (Or.symm h0)]
    · rw [if_neg h0, if_neg (fun hc => h0 (Or.symm hc)), sumProd_comm a b,
        mul_comm (Real.sqrt (sumProd a a)) (Real.sqrt (sumProd b b))]
  · rw [if_pos h, if_pos (Ne.symm h)]

theorem cosineSimilarity_self (a : List ℝ) (x : ℝ) (hx : x ∈ a) (hxne : x ≠ 0) :
    cosineSimilarity a a = some 1 := by
  have hpos : 0 < sumProd a a := sumProd_self_pos a x hx hxne
  have hsq : Real.sqrt (sumProd a a) ≠ 0 :=
    ne_of_gt (Real.sqrt_pos.mpr hpos)
  unfold cosineSimilarity
  rw [if_neg (by simp)]
  simp only []
  rw [if_neg (by simp [hsq]), Real.mul_self_sqrt hpos.le, div_self hpos.ne']

theorem cosineSimilarity_zero_norm (a b : List ℝ) (h : a.length = b.length)
    (h0 : Real.sqrt (sumProd a a) = 0 ∨ Real.sqrt (sumProd b b) = 0) :
    cosineSimilarity a b = some 0 := by
  unfold cosineSimilarity
  rw [if_neg (by simp [h])]
  simp only []
  rw [if_pos h0]

theorem cosineSimilarity_length_mismatch (a b : List ℝ) (h : a.length ≠ b.length) :
    cosineSimilarity a b = none := by
  unfold cosineSimilarity
  rw [if_pos h]

end Matcher

/-- C4.  `cosineSimilarity` is symmetric; a vector with some non-zero entry
has similarity exactly 1 with itself; if either input's Euclidean norm
(`Math.sqrt` of its sum of squared entries) is zero the result is exactly 0;
and inputs of different lengths produce the thrown validation failure
(modelled as `none`) instead of a value. -/
theorem cosineSimilarity_spec :
    (∀ a b : List ℝ, Matcher.cosineSimilarity a b = Matcher.cosineSimilarity b a) ∧
    (∀ (a : List ℝ) (x : ℝ), x ∈ a → x ≠ 0 →
      Matcher.cosineSimilarity a a = some 1) ∧
    (∀ a b : List ℝ, a.length = b.length →
      Real.sqrt (Matcher.sumProd a a) = 0 ∨ Real.sqrt (Matcher.sumProd b b) = 0 →
      Matcher.cosineSimilarity a b = some 0) ∧
    (∀ a b : List ℝ, a.length ≠ b.length → Matcher.cosineSimilarity a b = none) :=
  ⟨Matcher.cosineSimilarity_comm, Matcher.cosineSimilarity_self,
   Matcher.cosineSimilarity_zero_norm, Matcher.cosineSimilarity_length_mismatch⟩

/-- Witness for C4 at concrete vectors. -/
theorem cosineSimilarity_spec_witness :
    Matcher.cosineSimilarity [1, 2] [3, 4] = Matcher.cosineSimilarity [3, 4] [1, 2] ∧
    Matcher.cosineSimilarity [3, 4] [3, 4] = some 1 ∧
    Matcher.cosineSimilarity [0, 0] [5, 6] = some 0 ∧
    Matcher.cosineSimilarity [1] [1, 2] = none := by
  refine ⟨cosineSimilarity_spec.1 [1, 2] [3, 4],
    cosineSimilarity_spec.2.1 [3, 4] 3 (by simp) (by norm_num),
    cosineSimilarity_spec.2.2.1 [0, 0] [5, 6] (by simp) ?_,
    cosineSimilarity_spec.2.2.2 [1] [1, 2] (by simp)⟩
  left
  simp [Matcher.sumProd]

namespace Matcher

/-- A `script_segments` row as used by the matcher
(`select id, content, embedding`, plus `project_id`/`position` used by the
fetch query). -/
structure Segment where
  id : Nat
  project_id : Nat
  content : String
  position : Nat
  embedding : Option (List ℝ)

/-- A `clips` row as used by the matcher
(`select id, description, tags, embedding`, plus `project_id`/`status` used
by the fetch query). -/
structure Clip where
  id : Nat
  project_id : Nat
  status : String
  description : Option String
  tags : Option (List String)
  embedding : Option (List ℝ)

/-- A `matches` row. -/
structure MatchRow where
  segment_id : Nat
  clip_id : Nat
  similarity_score : ℝ
  rank : Nat

/-- The relational store as seen by the matcher.  The `matches` table is
named `matchRows` here because `matches` is a Lean keyword. -/
structure Db where
  segments : List Segment
  clips : List Clip
  matchRows : List MatchRow

/-- `generateEmbedding(text)`: throws on empty (or all-whitespace) text,
otherwise calls the external embedding model `em`. -/
def generateEmbedding (em : String → List ℝ) (text : String) :
    Except String (List ℝ) :=
  if jsTrim text = "" then .error "Cannot generate embedding for empty text"
  else .ok (em text)

/-- `clipTextForEmbedding(description, tags)`:
`` `${description || ''} ${tagString}`.trim() `` with
`tagString = tags ? tags.join(', ') : ''`. -/
def clipTextForEmbedding (description : Option String) (tags : Option (List String)) :
    String :=
  jsTrim ((description.getD "") ++ " " ++ String.intercalate ", " (tags.getD []))

/-- The row update `update({ embedding }).eq('id', segmentId)` on the
segment table. -/
def updSegEmbedding (sid : Nat) (emb : List ℝ) : Segment → Segment :=
  fun x => if x.id == sid then { x with embedding := some emb } else x

/-- The row update `update({ embedding }).eq('id', clipId)` on the clip
table. -/
def updClipEmbedding (cid : Nat) (emb : List ℝ) : Clip → Clip :=
  fun x => if x.id == cid then { x with embedding := some emb } else x

/-- `ensureSegmentEmbedding(segmentId)`: fetch the row (`single()`), return if
an embedding is already stored, else generate one from `content` and store it. -/
def ensureSegmentEmbedding (em : String → List ℝ) (db : Db) (segmentId : Nat) :
    Except String Db :=
  match db.segments.find? (fun s => s.id == segmentId) with
  | none => .error "Failed to fetch segment"
  | some s =>
    if s.embedding.isSome then .ok db
    else
      match generateEmbedding em s.content with
      | .error e => .error e
      | .ok emb =>
        .ok { db with segments := db.segments.map (updSegEmbedding segmentId emb) }

/-- `ensureClipEmbedding(clipId)`: fetch the row, return if an embedding is
already stored; when the combined description/tags text is empty, warn and
skip (store nothing); otherwise generate an embedding and store it. -/
def ensureClipEmbedding (em : String → List ℝ) (db : Db) (clipId : Nat) :
    Except String Db :=
  match db.clips.find? (fun c => c.id == clipId) with
  | none => .error "Failed to fetch clip"
  | some c =>
    if c.embedding.isSome then .ok db
    else
      let text := clipTextForEmbedding c.description c.tags
      if text = "" then .ok db
      else
        match generateEmbedding em text with
        | .error e => .error e
        | .ok emb =>
          .ok { db with clips := db.clips.map (updClipEmbedding clipId emb) }

/-- The segment fetch of `computeMatches`: all of the project's
`script_segments`, ordered by `position` ascending. -/
def fetchSegments (db : Db) (projectId : Nat) : List Segment :=
  (db.segments.filter fun s => s.project_id == projectId).mergeSort
    fun x y => decide (x.position ≤ y.position)

/-- The clip fetch of `computeMatches`: all of the project's clips with
`status = 'ready'`. -/
def fetchReadyClips (db : Db) (projectId : Nat) : List Clip :=
  db.clips.filter fun c => c.project_id == projectId && c.status == "ready"

/-- The first ensure-embeddings loop of `computeMatches`: for each fetched
segment still lacking an embedding, call `ensureSegmentEmbedding` and refetch
the stored embedding into the local row.  Returns the updated store and the
updated local segment list. -/
def ensureSegmentsLoop (em : String → List ℝ) :
    Db → List Segment → Except String (Db × List Segment)
  | db, [] => .ok (db, [])
  | db, s :: rest =>
    if s.embedding.isSome then
      match ensureSegmentsLoop em db rest with
      | .error e => .error e
      | .ok (db2, rest2) => .ok (db2, s :: rest2)
    else
      match ensureSegmentEmbedding em db s.id with
      | .error e => .error e
      | .ok db1 =>
        match db1.segments.find? (fun x => x.id == s.id) with
        | none => .error "Failed to refetch segment"
        | some u =>
          match ensureSegmentsLoop em db1 rest with
          | .error e => .error e
          | .ok (db2, rest2) => .ok (db2, { s with embedding := u.embedding } :: rest2)

/-- The second ensure-embeddings loop of `computeMatches`, over the fetched
ready clips. -/
def ensureClipsLoop (em : String → List ℝ) :
    Db → List Clip → Except String (Db × List Clip)
  | db, [] => .ok (db, [])
  | db, c :: rest =>
    if c.embedding.isSome then
      match ensureClipsLoop em db rest with
      | .error e => .error e
      | .ok (db2, rest2) => .ok (db2, c :: rest2)
    else
      match ensureClipEmbedding em db c.id with
      | .error e => .error e
      | .ok db1 =>
        match db1.clips.find? (fun x => x.id == c.id) with
        | none => .error "Failed to refetch clip"
        | some u =>
          match ensureClipsLoop em db1 rest with
          | .error e => .error e
          | .ok (db2, rest2) => .ok (db2, { c with embedding := u.embedding } :: rest2)

/-- The per-clip similarity pass for one segment: JS throws out of
`computeMatches` when `cosineSimilarity` throws on a length mismatch. -/
noncomputable def similarityList (seg : Segment) :
    List Clip → Except String (List (Nat × ℝ))
  | [] => .ok []
  | c :: rest =>
    match cosineSimilarity (seg.embedding.getD []) (c.embedding.getD []) with
    | none => .error "Vectors must have same length"
    | some score =>
      match similarityList seg rest with
      | .error e => .error e
      | .ok l => .ok ((c.id, score) :: l)

/-- `topMatches.map((match, index) => ({segment_id, clip_id,
similarity_score, rank: index + 1}))`, with `i` the running 0-based index. -/
def buildRows (sid : Nat) : Nat → List (Nat × ℝ) → List MatchRow
  | _, [] => []
  | i, p :: rest => ⟨sid, p.1, p.2, i + 1⟩ :: buildRows sid (i + 1) rest

/-- One iteration of the match-insertion loop: score every valid clip against
the segment, sort descending by score (`sort((a, b) => b.score - a.score)`,
a stable sort), keep the first `topK`, and rank them `1..len`. -/
noncomputable def scoreSegment (seg : Segment) (validClips : List Clip) (topK : Nat) :
    Except String (List MatchRow) :=
  match similarityList seg validClips with
  | .error e => .error e
  | .ok sims =>
    let sorted := sims.mergeSort fun x y => decide (y.2 ≤ x.2)
    .ok (buildRows seg.id 0 (sorted.take topK))

/-- The per-segment loop of `computeMatches`: insert each segment's top-K
rows (the insert is skipped when the row list is empty). -/
noncomputable def insertLoop (validClips : List Clip) (topK : Nat) :
    Db → List Segment → Except String Db
  | db, [] => .ok db
  | db, seg :: rest =>
    match scoreSegment seg validClips topK with
    | .error e => .error e
    | .ok rows =>
      let db1 := if rows.length > 0 then { db with matchRows := db.matchRows ++ rows } else db
      insertLoop validClips topK db1 rest

/-- `computeMatches(projectId, topK)`: fetch segments and ready clips, no-op
when either list is empty; ensure embeddings (refetching updated rows);
keep only rows that now have embeddings; delete all existing match rows whose
`segment_id` is among the valid segments; then compute and insert each
segment's ranked top-K matches. -/
noncomputable def computeMatches (em : String → List ℝ) (db : Db)
    (projectId : Nat) (topK : Nat) : Except String Db :=
  let segments := fetchSegments db projectId
  let clips := fetchReadyClips db projectId
  if segments.length = 0 ∨ clips.length = 0 then .ok db
  else
    match ensureSegmentsLoop em db segments with
    | .error e => .error e
    | .ok (db1, segments1) =>
      match ensureClipsLoop em db1 clips with
      | .error e => .error e
      | .ok (db2, clips1) =>
        let validSegments := segments1.filter fun s => s.embedding.isSome
        let validClips := clips1.filter fun c => c.embedding.isSome
        let segmentIds := validSegments.map fun s => s.id
        let db3 :=
          if segmentIds.length > 0 then
            { db2 with
              matchRows := db2.matchRows.filter fun m => ¬ segmentIds.contains m.segment_id }
          else db2
        insertLoop validClips topK db3 validSegments

/-- `processMatches(projectId)`: run `computeMatches` with the default
`topK = 5`, propagating any error. -/
noncomputable def processMatches (em : String → List ℝ) (db : Db) (projectId : Nat) :
    Except String Db :=
  computeMatches em db projectId 5

end Matcher

/-- C9.  When the project's segment fetch or its ready-clip fetch is empty,
`computeMatches` returns successfully with the store untouched: nothing is
deleted, no embedding is computed or stored, nothing is inserted. -/
theorem computeMatches_empty_noop (em : String → List ℝ) (db : Matcher.Db)
    (projectId topK : Nat)
    (h : (Matcher.fetchSegments db projectId).length = 0 ∨
         (Matcher.fetchReadyClips db projectId).length = 0) :
    Matcher.computeMatches em db projectId topK = .ok db := by
  unfold Matcher.computeMatches
  exact if_pos h

unseal List.merge List.mergeSort in
/-- Witness for C9 on the empty store. -/
theorem computeMatches_empty_noop_witness :
    (Matcher.fetchSegments ⟨[], [], []⟩ 1).length = 0 ∧
    Matcher.computeMatches (fun _ => [1]) ⟨[], [], []⟩ 1 5 = .ok ⟨[], [], []⟩ :=
  ⟨rfl, computeMatches_empty_noop (fun _ => [1]) ⟨[], [], []⟩ 1 5 (Or.inl rfl)⟩

unseal List.merge List.mergeSort in
/-- C2.  Evaluation of the matcher at the failing input: a project with one
ready, embedded clip and two segments without stored embeddings, the first
having empty `content`.  `ensureSegmentEmbedding` calls `generateEmbedding`
on the empty text, which throws instead of skipping the segment, so the whole
`computeMatches` run aborts: the non-empty segment is never matched and no
match rows are written at all (contradicting "matching for the project's
other segments still completes successfully"). -/
theorem computeMatches_aborts_on_empty_segment :
    Matcher.computeMatches (fun _ => [1])
      ⟨[⟨1, 1, "", 0, none⟩, ⟨2, 1, "hello", 1, none⟩],
       [⟨3, 1, "ready", some "d", some ["t"], some [1]⟩], []⟩ 1 5 =
    .error "Cannot generate embedding for empty text" := rfl

namespace Matcher

/-- With duplicate-free ids, the `single()`-style lookup finds exactly the
member row. -/
theorem find?_idKey {α : Type} (idf : α → Nat) {l : List α}
    (hN : (l.map idf).Nodup) {s : α} (hs : s ∈ l) :
    l.find? (fun x => idf x == idf s) = some s := by
  induction l with
  | nil => cases hs
  | cons a t ih =>
    rw [List.map_cons, List.nodup_cons] at hN
    rcases List.mem_cons.mp hs with rfl | hmem
    · exact List.find?_cons_of_pos _ (by simp)
    · have hne : idf a ≠ idf s := fun he =>
        hN.1 (he ▸ List.mem_map_of_mem idf hmem)
      rw [List.find?_cons_of_neg _ (by simp [hne])]
      exact ih hN.2 hmem

/-- `find?` by id commutes with an id-preserving map. -/
theorem find?_idKey_map {α : Type} (idf : α → Nat) (k : Nat) (f : α → α)
    (hf : ∀ x, idf (f x) = idf x) :
    ∀ l : List α, (l.map f).find? (fun x => idf x == k) =
      (l.find? (fun x => idf x == k)).map f := by
  intro l
  induction l with
  | nil => simp
  | cons a t ih =>
    rw [List.map_cons, List.find?_cons, List.find?_cons, hf a]
    cases hb : (idf a == k) with
    | true => rfl
    | false => exact ih

theorem updSegEmbedding_fields (sid : Nat) (emb : List ℝ) (x : Segment) :
    (updSegEmbedding sid emb x).id = x.id ∧
    (updSegEmbedding sid emb x).project_id = x.project_id ∧
    (updSegEmbedding sid emb x).position = x.position ∧
    (updSegEmbedding sid emb x).content = x.content := by
  unfold updSegEmbedding
  by_cases h : (x.id == sid) = true <;> simp [h]

theorem updSegEmbedding_of_ne (sid : Nat) (emb : List ℝ) {x : Segment}
    (h : x.id ≠ sid) : updSegEmbedding sid emb x = x := by
  unfold updSegEmbedding
  simp [h]

theorem updSegEmbedding_self (emb : List ℝ) (s : Segment) :
    updSegEmbedding s.id emb s = { s with embedding := some emb } := by
  unfold updSegEmbedding
  simp

/-- A successful `ensureSegmentEmbedding` on a fetched row without a stored
embedding generates an embedding from the row's content and stores it. -/
theorem ensureSegmentEmbedding_ok_none {em : String → List ℝ} {db : Db}
    {s : Segment} {db1 : Db}
    (hN : (db.segments.map (fun s => s.id)).Nodup) (hsmem : s ∈ db.segments)
    (hs : ¬ s.embedding.isSome = true)
    (h : ensureSegmentEmbedding em db s.id = .ok db1) :
    ∃ emb, generateEmbedding em s.content = .ok emb ∧
      db1 = { db with segments := db.segments.map (updSegEmbedding s.id emb) } := by
  simp only [ensureSegmentEmbedding, find?_idKey (fun x => x.id) hN hsmem, hs,
    Bool.false_eq_true, if_false, reduceIte] at h
  cases hgen : generateEmbedding em s.content with
  | error e => rw [hgen] at h; simp at h
  | ok emb =>
    rw [hgen] at h
    simp only [Except.ok.injEq] at h
    exact ⟨emb, rfl, h.symm⟩

theorem updClipEmbedding_fields (cid : Nat) (emb : List ℝ) (x : Clip) :
    (updClipEmbedding cid emb x).id = x.id ∧
    (updClipEmbedding cid emb x).project_id = x.project_id ∧
    (updClipEmbedding cid emb x).status = x.status ∧
    (updClipEmbedding cid emb x).description = x.description ∧
    (updClipEmbedding cid emb x).tags = x.tags := by
  unfold updClipEmbedding
  by_cases h : (x.id == cid) = true <;> simp [h]

theorem updClipEmbedding_of_ne (cid : Nat) (emb : List ℝ) {x : Clip}
    (h : x.id ≠ cid) : updClipEmbedding cid emb x = x := by
  unfold updClipEmbedding
  simp [h]

theorem updClipEmbedding_self (emb : List ℝ) (c : Clip) :
    updClipEmbedding c.id emb c = { c with embedding := some emb } := by
  unfold updClipEmbedding
  simp

/-- A successful `ensureClipEmbedding` on a fetched row without a stored
embedding either skips (empty description/tags text) leaving the store
untouched, or generates an embedding from the text and stores it. -/
theorem ensureClipEmbedding_ok_none {em : String → List ℝ} {db : Db}
    {c : Clip} {db1 : Db}
    (hN : (db.clips.map (fun c => c.id)).Nodup) (hcmem : c ∈ db.clips)
    (hc : ¬ c.embedding.isSome = true)
    (h : ensureClipEmbedding em db c.id = .ok db1) :
    (clipTextForEmbedding c.description c.tags = "" ∧ db1 = db) ∨
    (∃ emb, generateEmbedding em (clipTextForEmbedding c.description c.tags) = .ok emb ∧
      db1 = { db with clips := db.clips.map (updClipEmbedding c.id emb) }) := by
  simp only [ensureClipEmbedding, find?_idKey (fun x => x.id) hN hcmem, hc,
    Bool.false_eq_true, if_false, reduceIte] at h
  by_cases ht : clipTextForEmbedding c.description c.tags = ""
  · rw [if_pos ht] at h
    simp only [Except.ok.injEq] at h
    exact Or.inl ⟨ht, h.symm⟩
  · rw [if_neg ht] at h
    cases hgen : generateEmbedding em (clipTextForEmbedding c.description c.tags) with
    | error e => rw [hgen] at h; simp at h
    | ok emb =>
      rw [hgen] at h
      simp only [Except.ok.injEq] at h
      exact Or.inr ⟨emb, rfl, h.symm⟩

/-- Characterization of a successful `ensureSegmentsLoop` run: the store's
segment table is rewritten by a pointwise id-, project-, position- and
content-preserving update `U`, rows whose id is outside the processed list are
untouched, stored embeddings are only ever added (never changed or removed),
the refetched local list is `ss.map U`, and every refetched row has an
embedding. -/
theorem ensureSegmentsLoop_ok {em : String → List ℝ} :
    ∀ {ss : List Segment} {db db2 : Db} {ss2 : List Segment},
    (db.segments.map (fun s => s.id)).Nodup →
    (∀ x ∈ ss, x ∈ db.segments) →
    ((ss.map fun s => s.id)).Nodup →
    ensureSegmentsLoop em db ss = .ok (db2, ss2) →
    ∃ U : Segment → Segment,
      (∀ x, (U x).id = x.id) ∧
      (∀ x, (U x).project_id = x.project_id) ∧
      (∀ x, (U x).position = x.position) ∧
      (∀ x, (U x).content = x.content) ∧
      (∀ x, x.id ∉ ss.map (fun s => s.id) → U x = x) ∧
      (∀ x ∈ db.segments, (U x).embedding = x.embedding ∨ x.embedding = none) ∧
      db2.segments = db.segments.map U ∧
      db2.clips = db.clips ∧
      db2.matchRows = db.matchRows ∧
      ss2 = ss.map U ∧
      (∀ y ∈ ss2, y.embedding.isSome) := by
  intro ss
  induction ss with
  | nil =>
    intro db db2 ss2 hN hmem hssN h
    simp only [ensureSegmentsLoop, Except.ok.injEq, Prod.mk.injEq] at h
    obtain ⟨rfl, rfl⟩ := h
    exact ⟨id, by simp, by simp, by simp, by simp, by simp, by simp,
      by simp, rfl, rfl, by simp, by simp⟩
  | cons s rest ih =>
    intro db db2 ss2 hN hmem hssN h
    simp only [ensureSegmentsLoop] at h
    rw [List.map_cons, List.nodup_cons] at hssN
    by_cases hs : s.embedding.isSome
    · rw [if_pos hs] at h
      cases hrec : ensureSegmentsLoop em db rest with
      | error e => rw [hrec] at h; simp at h
      | ok p =>
        obtain ⟨db2a, rest2⟩ := p
        rw [hrec] at h
        simp only [Except.ok.injEq, Prod.mk.injEq] at h
        obtain ⟨rfl, rfl⟩ := h
        obtain ⟨U, hUid, hUproj, hUpos, hUcont, hUout, hUemb, hdbseg, hdbclip,
          hdbrows, hss2, hsome⟩ :=
          ih hN (fun x hx => hmem x (List.mem_cons_of_mem _ hx)) hssN.2 hrec
        have hUs : U s = s := hUout s hssN.1
        refine ⟨U, hUid, hUproj, hUpos, hUcont, ?_, hUemb, hdbseg, hdbclip,
          hdbrows, ?_, ?_⟩
        · intro x hx
          exact hUout x fun hm => hx (List.mem_cons_of_mem _ hm)
        · rw [List.map_cons, hUs, hss2]
        · intro y hy
          rcases List.mem_cons.mp hy with rfl | hy2
          · exact hs
          · exact hsome y hy2
    · rw [if_neg hs] at h
      have hsmem : s ∈ db.segments := hmem s (List.mem_cons_self s rest)
      cases hens : ensureSegmentEmbedding em db s.id with
      | error e => rw [hens] at h; simp at h
      | ok db1 =>
        rw [hens] at h
        obtain ⟨emb, hgen, rfl⟩ := ensureSegmentEmbedding_ok_none hN hsmem hs hens
        have hupd_id : ∀ x, (updSegEmbedding s.id emb x).id = x.id :=
          fun x => (updSegEmbedding_fields s.id emb x).1
        have hfind1 : (db.segments.map (updSegEmbedding s.id emb)).find?
            (fun x => x.id == s.id) = some (updSegEmbedding s.id emb s) := by
          rw [find?_idKey_map (fun x => x.id) s.id (updSegEmbedding s.id emb)
            hupd_id db.segments,
            find?_idKey (fun x => x.id) hN hsmem, Option.map_some']
        simp only [hfind1, updSegEmbedding_self] at h
        cases hrec : ensureSegmentsLoop em
            { db with segments := db.segments.map (updSegEmbedding s.id emb) } rest with
        | error e => rw [hrec] at h; simp at h
        | ok p =>
          obtain ⟨db2a, rest2⟩ := p
          rw [hrec] at h
          simp only [Except.ok.injEq, Prod.mk.injEq] at h
          obtain ⟨rfl, rfl⟩ := h
          have hN1 : ((List.map (updSegEmbedding s.id emb) db.segments).map
              (fun s => s.id)).Nodup := by
            rw [List.map_map]
            simpa [Function.comp_def, hupd_id] using hN
          have hmem1 : ∀ x ∈ rest, x ∈ List.map (updSegEmbedding s.id emb) db.segments := by
            intro x hx
            have hxid : x.id ≠ s.id := fun he =>
              hssN.1 (he ▸ List.mem_map_of_mem (fun s => s.id) hx)
            have heq : updSegEmbedding s.id emb x = x :=
              updSegEmbedding_of_ne s.id emb hxid
            have := List.mem_map_of_mem (updSegEmbedding s.id emb)
              (hmem x (List.mem_cons_of_mem _ hx))
            rwa [heq] at this
          obtain ⟨U1, hUid, hUproj, hUpos, hUcont, hUout, hUemb, hdbseg, hdbclip,
            hdbrows, hss2, hsome⟩ := ih hN1 hmem1 hssN.2 hrec
          refine ⟨fun x => U1 (updSegEmbedding s.id emb x), ?_, ?_, ?_, ?_, ?_, ?_,
            ?_, hdbclip, hdbrows, ?_, ?_⟩
          · intro x; rw [hUid, hupd_id]
          · intro x; rw [hUproj, (updSegEmbedding_fields s.id emb x).2.1]
          · intro x; rw [hUpos, (updSegEmbedding_fields s.id emb x).2.2.1]
          · intro x; rw [hUcont, (updSegEmbedding_fields s.id emb x).2.2.2]
          · intro x hx
            rw [List.map_cons] at hx
            have hx1 : x.id ≠ s.id := fun he => hx (by rw [he]; exact List.mem_cons_self _ _)
            have hx2 : x.id ∉ rest.map (fun s => s.id) := fun hm =>
              hx (List.mem_cons_of_mem _ hm)
            show U1 (updSegEmbedding s.id emb x) = x
            rw [updSegEmbedding_of_ne s.id emb hx1]
            exact hUout x hx2
          · intro x hxmem
            by_cases hx : x.id = s.id
            · have hxe : x = s := List.inj_on_of_nodup_map hN hxmem hsmem hx
              subst hxe
              exact Or.inr (Option.not_isSome_iff_eq_none.mp hs)
            · have hux : updSegEmbedding s.id emb x = x :=
                updSegEmbedding_of_ne s.id emb hx
              show (U1 (updSegEmbedding s.id emb x)).embedding = x.embedding ∨
                x.embedding = none
              rw [hux]
              have hx1 : x ∈ List.map (updSegEmbedding s.id emb) db.segments := by
                have := List.mem_map_of_mem (updSegEmbedding s.id emb) hxmem
                rwa [hux] at this
              exact hUemb x hx1
          · rw [hdbseg, List.map_map]
            rfl
          · rw [List.map_cons, hss2]
            have h1 : U1 (updSegEmbedding s.id emb s) = updSegEmbedding s.id emb s :=
              hUout _ (by rw [hupd_id]; exact hssN.1)
            rw [h1, updSegEmbedding_self]
            congr 1
            refine List.map_congr_left fun x hx => ?_
            have hxid : x.id ≠ s.id := fun he =>
              hssN.1 (he ▸ List.mem_map_of_mem (fun s => s.id) hx)
            rw [updSegEmbedding_of_ne s.id emb hxid]
          · intro y hy
            rcases List.mem_cons.mp hy with rfl | hy2
            · rfl
            · exact hsome y hy2

/-- Characterization of a successful `ensureClipsLoop` run: like
`ensureSegmentsLoop_ok`, with the extra facts that a refetched clip still
lacking an embedding must have an empty description/tags text (the skip
branch), and that `status`/`description`/`tags` are preserved. -/
theorem ensureClipsLoop_ok {em : String → List ℝ} :
    ∀ {ss : List Clip} {db db2 : Db} {ss2 : List Clip},
    (db.clips.map (fun c => c.id)).Nodup →
    (∀ x ∈ ss, x ∈ db.clips) →
    ((ss.map fun c => c.id)).Nodup →
    ensureClipsLoop em db ss = .ok (db2, ss2) →
    ∃ V : Clip → Clip,
      (∀ x, (V x).id = x.id) ∧
      (∀ x, (V x).project_id = x.project_id) ∧
      (∀ x, (V x).status = x.status) ∧
      (∀ x, (V x).description = x.description) ∧
      (∀ x, (V x).tags = x.tags) ∧
      (∀ x, x.id ∉ ss.map (fun c => c.id) → V x = x) ∧
      (∀ x ∈ db.clips, (V x).embedding = x.embedding ∨ x.embedding = none) ∧
      db2.clips = db.clips.map V ∧
      db2.segments = db.segments ∧
      db2.matchRows = db.matchRows ∧
      ss2 = ss.map V ∧
      (∀ y ∈ ss2, y.embedding = none →
        clipTextForEmbedding y.description y.tags = "") := by
  intro ss
  induction ss with
  | nil =>
    intro db db2 ss2 hN hmem hssN h
    simp only [ensureClipsLoop, Except.ok.injEq, Prod.mk.injEq] at h
    obtain ⟨rfl, rfl⟩ := h
    exact ⟨id, by simp, by simp, by simp, by simp, by simp, by simp, by simp,
      by simp, rfl, rfl, by simp, by simp⟩
  | cons c rest ih =>
    intro db db2 ss2 hN hmem hssN h
    simp only [ensureClipsLoop] at h
    rw [List.map_cons, List.nodup_cons] at hssN
    by_cases hc : c.embedding.isSome
    · rw [if_pos hc] at h
      cases hrec : ensureClipsLoop em db rest with
      | error e => rw [hrec] at h; simp at h
      | ok p =>
        obtain ⟨db2a, rest2⟩ := p
        rw [hrec] at h
        simp only [Except.ok.injEq, Prod.mk.injEq] at h
        obtain ⟨rfl, rfl⟩ := h
        obtain ⟨V, hVid, hVproj, hVstat, hVdesc, hVtags, hVout, hVemb, hdbclip,
          hdbseg, hdbrows, hss2, hskip⟩ :=
          ih hN (fun x hx => hmem x (List.mem_cons_of_mem _ hx)) hssN.2 hrec
        have hVc : V c = c := hVout c hssN.1
        refine ⟨V, hVid, hVproj, hVstat, hVdesc, hVtags, ?_, hVemb, hdbclip,
          hdbseg, hdbrows, ?_, ?_⟩
        · intro x hx
          exact hVout x fun hm => hx (List.mem_cons_of_mem _ hm)
        · rw [List.map_cons, hVc, hss2]
        · intro y hy
          rcases List.mem_cons.mp hy with rfl | hy2
          · intro hnone
            rw [hnone] at hc
            simp at hc
          · exact hskip y hy2
    · rw [if_neg hc] at h
      have hcmem : c ∈ db.clips := hmem c (List.mem_cons_self c rest)
      have hfind : db.clips.find? (fun x => x.id == c.id) = some c :=
        find?_idKey (fun x => x.id) hN hcmem
      cases hens : ensureClipEmbedding em db c.id with
      | error e => rw [hens] at h; simp at h
      | ok db1 =>
        rw [hens] at h
        rcases ensureClipEmbedding_ok_none hN hcmem hc hens with
          ⟨ht, hdb1⟩ | ⟨emb, hgen, rfl⟩
        · -- skip branch: empty text, store untouched
          have hceta : ({ c with embedding := c.embedding } : Clip) = c := rfl
          rw [hdb1] at h
          simp only [hfind, hceta] at h
          cases hrec : ensureClipsLoop em db rest with
          | error e => rw [hrec] at h; simp at h
          | ok p =>
            obtain ⟨db2a, rest2⟩ := p
            rw [hrec] at h
            simp only [Except.ok.injEq, Prod.mk.injEq] at h
            obtain ⟨rfl, rfl⟩ := h
            obtain ⟨V, hVid, hVproj, hVstat, hVdesc, hVtags, hVout, hVemb, hdbclip,
              hdbseg, hdbrows, hss2, hskip⟩ :=
              ih hN (fun x hx => hmem x (List.mem_cons_of_mem _ hx)) hssN.2 hrec
            have hVc : V c = c := hVout c hssN.1
            refine ⟨V, hVid, hVproj, hVstat, hVdesc, hVtags, ?_, hVemb, hdbclip,
              hdbseg, hdbrows, ?_, ?_⟩
            · intro x hx
              exact hVout x fun hm => hx (List.mem_cons_of_mem _ hm)
            · rw [List.map_cons, hVc, hss2]
            · intro y hy
              rcases List.mem_cons.mp hy with rfl | hy2
              · intro _; exact ht
              · exact hskip y hy2
        · -- generate branch: embedding stored for this clip
          have hupd_id : ∀ x, (updClipEmbedding c.id emb x).id = x.id :=
            fun x => (updClipEmbedding_fields c.id emb x).1
          have hfind1 : (db.clips.map (updClipEmbedding c.id emb)).find?
              (fun x => x.id == c.id) = some (updClipEmbedding c.id emb c) := by
            rw [find?_idKey_map (fun x => x.id) c.id (updClipEmbedding c.id emb)
              hupd_id db.clips, hfind, Option.map_some']
          simp only [hfind1, updClipEmbedding_self] at h
          cases hrec : ensureClipsLoop em
              { db with clips := db.clips.map (updClipEmbedding c.id emb) } rest with
          | error e => rw [hrec] at h; simp at h
          | ok p =>
            obtain ⟨db2a, rest2⟩ := p
            rw [hrec] at h
            simp only [Except.ok.injEq, Prod.mk.injEq] at h
            obtain ⟨rfl, rfl⟩ := h
            have hN1 : ((List.map (updClipEmbedding c.id emb) db.clips).map
                (fun c => c.id)).Nodup := by
              rw [List.map_map]
              simpa [Function.comp_def, hupd_id] using hN
            have hmem1 : ∀ x ∈ rest, x ∈ List.map (updClipEmbedding c.id emb) db.clips := by
              intro x hx
              have hxid : x.id ≠ c.id := fun he =>
                hssN.1 (he ▸ List.mem_map_of_mem (fun c => c.id) hx)
              have heq : updClipEmbedding c.id emb x = x :=
                updClipEmbedding_of_ne c.id emb hxid
              have := List.mem_map_of_mem (updClipEmbedding c.id emb)
                (hmem x (List.mem_cons_of_mem _ hx))
              rwa [heq] at this
            obtain ⟨V1, hVid, hVproj, hVstat, hVdesc, hVtags, hVout, hVemb, hdbclip,
              hdbseg, hdbrows, hss2, hskip⟩ := ih hN1 hmem1 hssN.2 hrec
            refine ⟨fun x => V1 (updClipEmbedding c.id emb x), ?_, ?_, ?_, ?_, ?_, ?_,
              ?_, ?_, hdbseg, hdbrows, ?_, ?_⟩
            · intro x; rw [hVid, hupd_id]
            · intro x; rw [hVproj, (updClipEmbedding_fields c.id emb x).2.1]
            · intro x; rw [hVstat, (updClipEmbedding_fields c.id emb x).2.2.1]
            · intro x; rw [hVdesc, (updClipEmbedding_fields c.id emb x).2.2.2.1]
            · intro x; rw [hVtags, (updClipEmbedding_fields c.id emb x).2.2.2.2]
            · intro x hx
              rw [List.map_cons] at hx
              have hx1 : x.id ≠ c.id := fun he => hx (by rw [he]; exact List.mem_cons_self _ _)
              have hx2 : x.id ∉ rest.map (fun c => c.id) := fun hm =>
                hx (List.mem_cons_of_mem _ hm)
              show V1 (updClipEmbedding c.id emb x) = x
              rw [updClipEmbedding_of_ne c.id emb hx1]
              exact hVout x hx2
            · intro x hxmem
              by_cases hx : x.id = c.id
              · have hxe : x = c := List.inj_on_of_nodup_map hN hxmem hcmem hx
                subst hxe
                exact Or.inr (Option.not_isSome_iff_eq_none.mp hc)
              · have hux : updClipEmbedding c.id emb x = x :=
                  updClipEmbedding_of_ne c.id emb hx
                show (V1 (updClipEmbedding c.id emb x)).embedding = x.embedding ∨
                  x.embedding = none
                rw [hux]
                have hx1 : x ∈ List.map (updClipEmbedding c.id emb) db.clips := by
                  have := List.mem_map_of_mem (updClipEmbedding c.id emb) hxmem
                  rwa [hux] at this
                exact hVemb x hx1
            · rw [hdbclip, List.map_map]
              rfl
            · rw [List.map_cons, hss2]
              have h1 : V1 (updClipEmbedding c.id emb c) = updClipEmbedding c.id emb c :=
                hVout _ (by rw [hupd_id]; exact hssN.1)
              rw [h1, updClipEmbedding_self]
              congr 1
              refine List.map_congr_left fun x hx => ?_
              have hxid : x.id ≠ c.id := fun he =>
                hssN.1 (he ▸ List.mem_map_of_mem (fun c => c.id) hx)
              rw [updClipEmbedding_of_ne c.id emb hxid]
            · intro y hy
              rcases List.mem_cons.mp hy with rfl | hy2
              · intro hnone
                simp at hnone
              · exact hskip y hy2

/-- When every row in the list already has an embedding, the segment ensure
loop is an identity on the store and the local list. -/
theorem ensureSegmentsLoop_noop {em : String → List ℝ} :
    ∀ {ss : List Segment} {db : Db},
    (∀ x ∈ ss, x.embedding.isSome) →
    ensureSegmentsLoop em db ss = .ok (db, ss) := by
  intro ss
  induction ss with
  | nil => intro db _; simp [ensureSegmentsLoop]
  | cons s rest ih =>
    intro db hall
    simp only [ensureSegmentsLoop]
    rw [if_pos (hall s (List.mem_cons_self s rest)),
      ih fun x hx => hall x (List.mem_cons_of_mem _ hx)]

/-- When every row in the list either has an embedding or has an empty
description/tags text, the clip ensure loop is an identity on the store and
the local list (rows with empty text are skipped again and refetched
unchanged). -/
theorem ensureClipsLoop_noop {em : String → List ℝ} :
    ∀ {ss : List Clip} {db : Db},
    (db.clips.map (fun c => c.id)).Nodup →
    (∀ x ∈ ss, x ∈ db.clips) →
    (∀ x ∈ ss, x.embedding = none →
      clipTextForEmbedding x.description x.tags = "") →
    ensureClipsLoop em db ss = .ok (db, ss) := by
  intro ss
  induction ss with
  | nil => intro db _ _ _; simp [ensureClipsLoop]
  | cons c rest ih =>
    intro db hN hmem hskip
    simp only [ensureClipsLoop]
    have htail := ih hN (fun x hx => hmem x (List.mem_cons_of_mem _ hx))
      (fun x hx => hskip x (List.mem_cons_of_mem _ hx))
    by_cases hc : c.embedding.isSome
    · rw [if_pos hc, htail]
    · have hcmem : c ∈ db.clips := hmem c (List.mem_cons_self c rest)
      have hfind : db.clips.find? (fun x => x.id == c.id) = some c :=
        find?_idKey (fun x => x.id) hN hcmem
      have hnone : c.embedding = none := Option.not_isSome_iff_eq_none.mp hc
      have hens : ensureClipEmbedding em db c.id = .ok db := by
        simp only [ensureClipEmbedding, hfind, hc, Bool.false_eq_true, if_false,
          reduceIte]
        rw [if_pos (hskip c (List.mem_cons_self c rest) hnone)]
      rw [if_neg hc, hens]
      simp only [hfind]
      rw [htail]

theorem similarityList_ok_length {seg : Segment} :
    ∀ {cs : List Clip} {sims : List (Nat × ℝ)},
    similarityList seg cs = .ok sims → sims.length = cs.length := by
  intro cs
  induction cs with
  | nil =>
    intro sims h
    simp only [similarityList, Except.ok.injEq] at h
    rw [← h]
    rfl
  | cons c rest ih =>
    intro sims h
    simp only [similarityList] at h
    cases hcos : cosineSimilarity (seg.embedding.getD []) (c.embedding.getD []) with
    | none => rw [hcos] at h; simp at h
    | some score =>
      rw [hcos] at h
      cases hrec : similarityList seg rest with
      | error e => rw [hrec] at h; simp at h
      | ok l =>
        rw [hrec] at h
        simp only [Except.ok.injEq] at h
        rw [← h, List.length_cons, ih hrec, List.length_cons]

theorem buildRows_length (sid : Nat) :
    ∀ (ps : List (Nat × ℝ)) (i : Nat), (buildRows sid i ps).length = ps.length := by
  intro ps
  induction ps with
  | nil => intro i; rfl
  | cons p rest ih => intro i; simp [buildRows, ih]

theorem buildRows_ranks (sid : Nat) :
    ∀ (ps : List (Nat × ℝ)) (i : Nat),
    (buildRows sid i ps).map (fun r => r.rank) = List.range' (i + 1) ps.length := by
  intro ps
  induction ps with
  | nil => intro i; rfl
  | cons p rest ih =>
    intro i
    rw [List.length_cons, List.range'_succ]
    simp [buildRows, ih]

theorem buildRows_sid (sid : Nat) :
    ∀ (ps : List (Nat × ℝ)) (i : Nat), ∀ r ∈ buildRows sid i ps,
    r.segment_id = sid := by
  intro ps
  induction ps with
  | nil => intro i r hr; cases hr
  | cons p rest ih =>
    intro i r hr
    rcases List.mem_cons.mp hr with rfl | hmem
    · rfl
    · exact ih (i + 1) r hmem

theorem buildRows_score_mem (sid : Nat) :
    ∀ (ps : List (Nat × ℝ)) (i : Nat), ∀ r ∈ buildRows sid i ps,
    ∃ p ∈ ps, r.similarity_score = p.2 := by
  intro ps
  induction ps with
  | nil => intro i r hr; cases hr
  | cons p rest ih =>
    intro i r hr
    rcases List.mem_cons.mp hr with rfl | hmem
    · exact ⟨p, List.mem_cons_self p rest, rfl⟩
    · obtain ⟨q, hq, hscore⟩ := ih (i + 1) r hmem
      exact ⟨q, List.mem_cons_of_mem _ hq, hscore⟩

theorem buildRows_pairwise (sid : Nat) :
    ∀ (ps : List (Nat × ℝ)) (i : Nat),
    ps.Pairwise (fun p q => q.2 ≤ p.2) →
    (buildRows sid i ps).Pairwise
      (fun a b => b.similarity_score ≤ a.similarity_score) := by
  intro ps
  induction ps with
  | nil => intro i _; exact List.Pairwise.nil
  | cons p rest ih =>
    intro i hp
    rw [List.pairwise_cons] at hp
    refine List.Pairwise.cons ?_ (ih (i + 1) hp.2)
    intro b hb
    obtain ⟨q, hq, hscore⟩ := buildRows_score_mem sid rest (i + 1) b hb
    rw [hscore]
    exact hp.1 q hq

/-- All rank-invariant facts about one segment's inserted rows. -/
theorem scoreSegment_ok {seg : Segment} {vc : List Clip} {k : Nat}
    {rows : List MatchRow} (h : scoreSegment seg vc k = .ok rows) :
    rows.length = min k vc.length ∧
    rows.map (fun r => r.rank) = List.range' 1 rows.length ∧
    rows.Pairwise (fun a b => b.similarity_score ≤ a.similarity_score) ∧
    (∀ r ∈ rows, r.segment_id = seg.id) := by
  unfold scoreSegment at h
  cases hsim : similarityList seg vc with
  | error e => rw [hsim] at h; simp at h
  | ok sims =>
    rw [hsim] at h
    simp only [Except.ok.injEq] at h
    subst h
    have hlen : (sims.mergeSort fun x y => decide (y.2 ≤ x.2)).length = sims.length :=
      List.length_mergeSort sims
    have htakelen :
        ((sims.mergeSort fun x y => decide (y.2 ≤ x.2)).take k).length = min k vc.length := by
      rw [List.length_take, hlen, similarityList_ok_length hsim]
    refine ⟨?_, ?_, ?_, ?_⟩
    · rw [buildRows_length, htakelen]
    · rw [buildRows_ranks, buildRows_length]
    · have hsorted : (sims.mergeSort fun x y => decide (y.2 ≤ x.2)).Pairwise
          (fun x y => decide (y.2 ≤ x.2)) := by
        refine List.sorted_mergeSort ?_ ?_ sims
        · intro a b c hab hbc
          simp only [decide_eq_true_eq] at *
          exact le_trans hbc hab
        · intro a b
          simp only [Bool.or_eq_true, decide_eq_true_eq]
          exact le_total b.2 a.2
      have htake := hsorted.sublist (List.take_sublist k _)
      refine buildRows_pairwise seg.id _ 0 (htake.imp ?_)
      intro a b hab
      exact of_decide_eq_true hab
    · exact buildRows_sid seg.id _ 0

/-- Structure of a successful `insertLoop` run: matches are appended
per-segment, in order, each produced by `scoreSegment`. -/
theorem insertLoop_ok {vc : List Clip} {k : Nat} :
    ∀ {segs : List Segment} {db db2 : Db},
    insertLoop vc k db segs = .ok db2 →
    db2.segments = db.segments ∧ db2.clips = db.clips ∧
    ∃ rws : List (List MatchRow),
      db2.matchRows = db.matchRows ++ rws.flatten ∧
      List.Forall₂ (fun seg rows => scoreSegment seg vc k = .ok rows) segs rws := by
  intro segs
  induction segs with
  | nil =>
    intro db db2 h
    simp only [insertLoop, Except.ok.injEq] at h
    subst h
    exact ⟨rfl, rfl, [], by simp, List.Forall₂.nil⟩
  | cons seg rest ih =>
    intro db db2 h
    simp only [insertLoop] at h
    cases hscore : scoreSegment seg vc k with
    | error e => rw [hscore] at h; simp at h
    | ok rows =>
      rw [hscore] at h
      obtain ⟨hseg, hclip, rws, hrows, hfa⟩ := ih h
      refine ⟨?_, ?_, rows :: rws, ?_, List.Forall₂.cons hscore hfa⟩
      · rw [hseg]; by_cases hr : rows.length > 0 <;> simp [hr]
      · rw [hclip]; by_cases hr : rows.length > 0 <;> simp [hr]
      · rw [hrows, List.flatten_cons]
        by_cases hr : rows.length > 0
        · simp [hr, List.append_assoc]
        · have hnil : rows = [] := List.length_eq_zero.mp (Nat.eq_zero_of_not_pos hr)
          simp [hr, hnil]

theorem forall2_mem_right {α β : Type _} {R : α → β → Prop} :
    ∀ {l1 : List α} {l2 : List β}, List.Forall₂ R l1 l2 →
    ∀ y ∈ l2, ∃ x ∈ l1, R x y := by
  intro l1 l2 hfa
  induction hfa with
  | nil => intro y hy; cases hy
  | cons hR htail ih =>
    intro y hy
    rcases List.mem_cons.mp hy with rfl | hmem
    · exact ⟨_, List.mem_cons_self _ _, hR⟩
    · obtain ⟨x, hx, hRx⟩ := ih y hmem
      exact ⟨x, List.mem_cons_of_mem _ hx, hRx⟩

/-- With duplicate-free segment ids, filtering the concatenated inserts by
one segment's id recovers exactly that segment's `scoreSegment` rows. -/
theorem flatten_rows_filter {vc : List Clip} {k : Nat} :
    ∀ {segs : List Segment} {rws : List (List MatchRow)},
    List.Forall₂ (fun seg rows => scoreSegment seg vc k = .ok rows) segs rws →
    (segs.map (fun s => s.id)).Nodup →
    ∀ s ∈ segs,
      scoreSegment s vc k =
        .ok (rws.flatten.filter fun r => r.segment_id == s.id) := by
  intro segs rws hfa
  induction hfa with
  | nil => intro _ s hs; exact absurd hs (List.not_mem_nil s)
  | @cons seg rows segs2 rws2 hR htail ih =>
    intro hN s hs
    rw [List.map_cons, List.nodup_cons] at hN
    rcases List.mem_cons.mp hs with rfl | hmem
    · have h1 : rows.filter (fun r => r.segment_id == s.id) = rows := by
        rw [List.filter_eq_self]
        intro r hr
        simp [(scoreSegment_ok hR).2.2.2 r hr]
      have h2 : rws2.flatten.filter (fun r => r.segment_id == s.id) = [] := by
        rw [List.filter_eq_nil_iff]
        intro r hr
        obtain ⟨rows2, hrows2, hrmem⟩ := List.mem_flatten.mp hr
        obtain ⟨seg2, hseg2, hR2⟩ := forall2_mem_right htail rows2 hrows2
        have hsid := (scoreSegment_ok hR2).2.2.2 r hrmem
        have hne : seg2.id ≠ s.id := fun he =>
          hN.1 (he ▸ List.mem_map_of_mem (fun s => s.id) hseg2)
        simp [hsid, hne]
      rw [List.flatten_cons, List.filter_append, h1, h2, List.append_nil]
      exact hR
    · have h1 : rows.filter (fun r => r.segment_id == s.id) = [] := by
        rw [List.filter_eq_nil_iff]
        intro r hr
        have hsid := (scoreSegment_ok hR).2.2.2 r hr
        have hne : seg.id ≠ s.id := fun he =>
          hN.1 (he ▸ List.mem_map_of_mem (fun s => s.id) hmem)
        simp [hsid, hne]
      rw [List.flatten_cons, List.filter_append, h1, List.nil_append]
      exact ih hN.2 s hmem

theorem fetchSegments_mem (db : Db) (pid : Nat) :
    ∀ x ∈ fetchSegments db pid, x ∈ db.segments := by
  intro x hx
  unfold fetchSegments at hx
  exact (List.mem_filter.mp (List.mem_mergeSort.mp hx)).1

theorem fetchReadyClips_mem (db : Db) (pid : Nat) :
    ∀ x ∈ fetchReadyClips db pid, x ∈ db.clips := by
  intro x hx
  exact (List.mem_filter.mp hx).1

theorem fetchSegments_ids_nodup {db : Db} (pid : Nat)
    (hN : (db.segments.map fun s => s.id).Nodup) :
    ((fetchSegments db pid).map fun s => s.id).Nodup := by
  unfold fetchSegments
  have hfil : ((db.segments.filter fun s => s.project_id == pid).map
      fun s => s.id).Nodup :=
    ((List.filter_sublist db.segments).map fun s => s.id).nodup hN
  exact (((List.mergeSort_perm (db.segments.filter fun s => s.project_id == pid)
    fun x y => decide (x.position ≤ y.position)).map fun s => s.id).symm.nodup hfil)

theorem fetchReadyClips_ids_nodup {db : Db} (pid : Nat)
    (hN : (db.clips.map fun c => c.id).Nodup) :
    ((fetchReadyClips db pid).map fun c => c.id).Nodup :=
  ((List.filter_sublist db.clips).map fun c => c.id).nodup hN

/-- The segment fetch commutes with a project- and position-preserving
pointwise rewrite of the segment table. -/
theorem filter_sort_map (segs : List Segment) (pid : Nat) (U : Segment → Segment)
    (hproj : ∀ x, (U x).project_id = x.project_id)
    (hpos : ∀ x, (U x).position = x.position) :
    ((segs.map U).filter fun s => s.project_id == pid).mergeSort
        (fun x y => decide (x.position ≤ y.position)) =
      ((segs.filter fun s => s.project_id == pid).mergeSort
        (fun x y => decide (x.position ≤ y.position))).map U := by
  rw [List.filter_map]
  have hfc : segs.filter ((fun s => s.project_id == pid) ∘ U) =
      segs.filter fun s => s.project_id == pid :=
    List.filter_congr fun x _ => by simp [Function.comp_def, hproj]
  rw [hfc]
  exact (List.map_mergeSort fun a _ b _ => by simp [hpos]).symm

/-- The ready-clip fetch commutes with a project- and status-preserving
pointwise rewrite of the clip table. -/
theorem filter_ready_map (clips : List Clip) (pid : Nat) (V : Clip → Clip)
    (hproj : ∀ x, (V x).project_id = x.project_id)
    (hstat : ∀ x, (V x).status = x.status) :
    ((clips.map V).filter fun c => c.project_id == pid && c.status == "ready") =
      (clips.filter fun c => c.project_id == pid && c.status == "ready").map V := by
  rw [List.filter_map]
  congr 1
  exact List.filter_congr fun x _ => by simp [Function.comp_def, hproj, hstat]

/-- Full characterization of a successful non-trivial `computeMatches` run:
segment/clip tables are pointwise rewritten (only adding embeddings), the
fetches of the final store are the rewritten fetches of the initial store,
every fetched segment ends with an embedding, clips without one have empty
text, and the match table is the old table minus all rows for the project's
segments plus the per-segment `scoreSegment` inserts (in fetch order). -/
theorem computeMatches_ok_main {em : String → List ℝ} {db : Db} {pid k : Nat}
    {db2 : Db}
    (hsegN : (db.segments.map fun s => s.id).Nodup)
    (hclipN : (db.clips.map fun c => c.id).Nodup)
    (hs : ¬ (fetchSegments db pid).length = 0)
    (hc : ¬ (fetchReadyClips db pid).length = 0)
    (hok : computeMatches em db pid k = .ok db2) :
    ∃ (U : Segment → Segment) (V : Clip → Clip) (rws : List (List MatchRow)),
      (∀ x, (U x).id = x.id) ∧ (∀ x, (V x).id = x.id) ∧
      db2.segments = db.segments.map U ∧
      db2.clips = db.clips.map V ∧
      fetchSegments db2 pid = (fetchSegments db pid).map U ∧
      fetchReadyClips db2 pid = (fetchReadyClips db pid).map V ∧
      (∀ y ∈ fetchSegments db2 pid, y.embedding.isSome) ∧
      (∀ y ∈ fetchReadyClips db2 pid, y.embedding = none →
        clipTextForEmbedding y.description y.tags = "") ∧
      db2.matchRows =
        (db.matchRows.filter fun m =>
          ¬ ((fetchSegments db pid).map fun s => s.id).contains m.segment_id)
        ++ rws.flatten ∧
      List.Forall₂ (fun seg rows =>
          scoreSegment seg
            ((fetchReadyClips db2 pid).filter fun c => c.embedding.isSome) k
            = .ok rows)
        (fetchSegments db2 pid) rws ∧
      insertLoop ((fetchReadyClips db2 pid).filter fun c => c.embedding.isSome) k
        ⟨db2.segments, db2.clips,
          db.matchRows.filter fun m =>
            ¬ ((fetchSegments db pid).map fun s => s.id).contains m.segment_id⟩
        (fetchSegments db2 pid) = .ok db2 := by
  simp only [computeMatches] at hok
  rw [if_neg (fun hor => Or.elim hor hs hc)] at hok
  cases hloop1 : ensureSegmentsLoop em db (fetchSegments db pid) with
  | error e => rw [hloop1] at hok; simp at hok
  | ok p1 =>
    obtain ⟨dbA, segs1⟩ := p1
    rw [hloop1] at hok
    simp only [] at hok
    obtain ⟨U, hUid, hUproj, hUpos, hUcont, hUout, hUemb, hAseg, hAclip, hArows,
      hsegs1, hsome1⟩ :=
      ensureSegmentsLoop_ok hsegN (fetchSegments_mem db pid)
        (fetchSegments_ids_nodup pid hsegN) hloop1
    cases hloop2 : ensureClipsLoop em dbA (fetchReadyClips db pid) with
    | error e => rw [hloop2] at hok; simp at hok
    | ok p2 =>
      obtain ⟨dbB, clips1⟩ := p2
      rw [hloop2] at hok
      simp only [] at hok
      have hNA : (dbA.clips.map fun c => c.id).Nodup := by
        rw [hAclip]; exact hclipN
      have hmemA : ∀ x ∈ fetchReadyClips db pid, x ∈ dbA.clips := by
        rw [hAclip]; exact fetchReadyClips_mem db pid
      obtain ⟨V, hVid, hVproj, hVstat, hVdesc, hVtags, hVout, hVemb, hBclip,
        hBseg, hBrows, hclips1, hskip1⟩ :=
        ensureClipsLoop_ok hNA hmemA (fetchReadyClips_ids_nodup pid hclipN) hloop2
      have hvalidS : segs1.filter (fun s => s.embedding.isSome) = segs1 :=
        List.filter_eq_self.mpr hsome1
      have hlen1 : segs1.length = (fetchSegments db pid).length := by
        rw [hsegs1, List.length_map]
      have hpos1 : (segs1.map fun s => s.id).length > 0 := by
        rw [List.length_map, hlen1]
        exact Nat.pos_of_ne_zero hs
      simp only [hvalidS] at hok
      rw [if_pos hpos1] at hok
      obtain ⟨hfseg, hfclip, rws, hfrows, hfa⟩ := insertLoop_ok hok
      -- field chains
      have hseg2 : db2.segments = db.segments.map U := by
        rw [hfseg, hBseg, hAseg]
      have hclip2 : db2.clips = db.clips.map V := by
        rw [hfclip, hBclip, hAclip]
      have hrowsB : dbB.matchRows = db.matchRows := by rw [hBrows, hArows]
      have hids : segs1.map (fun s => s.id) =
          (fetchSegments db pid).map fun s => s.id := by
        rw [hsegs1, List.map_map]
        exact List.map_congr_left fun x _ => hUid x
      have hfS2 : fetchSegments db2 pid = (fetchSegments db pid).map U := by
        unfold fetchSegments
        rw [show db2.segments = db.segments.map U from hseg2]
        exact filter_sort_map db.segments pid U hUproj hUpos
      have hfS2s : fetchSegments db2 pid = segs1 := by rw [hfS2, ← hsegs1]
      have hfC2 : fetchReadyClips db2 pid = (fetchReadyClips db pid).map V := by
        unfold fetchReadyClips
        rw [show db2.clips = db.clips.map V from hclip2]
        exact filter_ready_map db.clips pid V hVproj hVstat
      have hfC2s : fetchReadyClips db2 pid = clips1 := by rw [hfC2, ← hclips1]
      refine ⟨U, V, rws, hUid, hVid, hseg2, hclip2, hfS2, hfC2, ?_, ?_, ?_, ?_, ?_⟩
      · rw [hfS2s]; exact hsome1
      · rw [hfC2s]; exact hskip1
      · rw [hfrows, ← hids, hrowsB]
      · rw [hfS2s, hfC2s]
        exact hfa
      · rw [hfS2s, hfC2s, ← hids]
        have hrec : (⟨db2.segments, db2.clips,
            db.matchRows.filter fun m =>
              ¬ (segs1.map fun s => s.id).contains m.segment_id⟩ : Db) =
            { dbB with matchRows := dbB.matchRows.filter fun m =>
                ¬ (segs1.map fun s => s.id).contains m.segment_id } := by
          rw [hrowsB, hfseg, hfclip]
        rw [hrec]
        exact hok

end Matcher

/-- C5.  After a successful non-trivial `computeMatches(projectId, topK)` run
(both fetches non-empty; store ids duplicate-free), every project segment with
a stored embedding has match rows numbering exactly
`min topK (number of embedded ready clips)`, with ranks exactly `1..k` in
list order and non-increasing similarity scores (rank 1 highest). -/
theorem computeMatches_rank_invariant
    (em : String → List ℝ) (db : Matcher.Db) (pid topK : Nat) (db2 : Matcher.Db)
    (hsegN : (db.segments.map fun s => s.id).Nodup)
    (hclipN : (db.clips.map fun c => c.id).Nodup)
    (hs : ¬ (Matcher.fetchSegments db pid).length = 0)
    (hc : ¬ (Matcher.fetchReadyClips db pid).length = 0)
    (hok : Matcher.computeMatches em db pid topK = .ok db2) :
    ∀ s ∈ db2.segments, s.project_id = pid → s.embedding.isSome →
      (db2.matchRows.filter fun r => r.segment_id == s.id).length =
        min topK ((Matcher.fetchReadyClips db2 pid).filter
          fun c => c.embedding.isSome).length ∧
      (db2.matchRows.filter fun r => r.segment_id == s.id).map (fun r => r.rank) =
        List.range' 1 (db2.matchRows.filter fun r => r.segment_id == s.id).length ∧
      (db2.matchRows.filter fun r => r.segment_id == s.id).Pairwise
        fun a b => b.similarity_score ≤ a.similarity_score := by
  obtain ⟨U, V, rws, hUid, hVid, hseg2, hclip2, hfS2, hfC2, hsome2, hskip2,
    hrows2, hfa, hins⟩ :=
    Matcher.computeMatches_ok_main hsegN hclipN hs hc hok
  intro s hsmem hproj hemb
  have hsfetch : s ∈ Matcher.fetchSegments db2 pid := by
    unfold Matcher.fetchSegments
    exact List.mem_mergeSort.mpr (List.mem_filter.mpr ⟨hsmem, by simp [hproj]⟩)
  have hids2 : ((Matcher.fetchSegments db2 pid).map fun t => t.id) =
      (Matcher.fetchSegments db pid).map fun t => t.id := by
    rw [hfS2, List.map_map]
    exact List.map_congr_left fun x _ => hUid x
  have hN2 : ((Matcher.fetchSegments db2 pid).map fun t => t.id).Nodup := by
    rw [hids2]
    exact Matcher.fetchSegments_ids_nodup pid hsegN
  have hsid : s.id ∈ (Matcher.fetchSegments db pid).map fun t => t.id := by
    rw [← hids2]
    exact List.mem_map_of_mem _ hsfetch
  have hleft : ((db.matchRows.filter fun m =>
      ¬ ((Matcher.fetchSegments db pid).map fun t => t.id).contains m.segment_id).filter
      fun r => r.segment_id == s.id) = [] := by
    rw [List.filter_filter, List.filter_eq_nil_iff]
    intro m _
    simp only [Bool.and_eq_true, beq_iff_eq, decide_eq_true_eq]
    rintro ⟨hpe, hqe⟩
    exact hqe (by rw [hpe]; exact List.elem_eq_true_of_mem hsid)
  have hsc := Matcher.flatten_rows_filter hfa hN2 s hsfetch
  have hrows : (db2.matchRows.filter fun r => r.segment_id == s.id) =
      rws.flatten.filter fun r => r.segment_id == s.id := by
    rw [hrows2, List.filter_append, hleft, List.nil_append]
  rw [hrows]
  obtain ⟨h1, h2, h3, _⟩ := Matcher.scoreSegment_ok hsc
  exact ⟨h1, h2, h3⟩

namespace Matcher

/-- Concrete one-segment store for witnesses. -/
def wSeg : Segment := ⟨1, 1, "hello", 0, some [1]⟩

/-- Concrete one-clip store for witnesses. -/
def wClip : Clip := ⟨2, 1, "ready", some "d", some ["t"], some [1]⟩

/-- Concrete witness store: one embedded segment, one embedded ready clip. -/
def wDb : Db := ⟨[wSeg], [wClip], []⟩

/-- The single match row `computeMatches` inserts for `wDb`. -/
def wRow : MatchRow := ⟨1, 2, 1, 1⟩

/-- `wDb` after a `computeMatches` run. -/
def wDb2 : Db := ⟨[wSeg], [wClip], [wRow]⟩

theorem wCos : cosineSimilarity [(1 : ℝ)] [(1 : ℝ)] = some 1 := by
  unfold cosineSimilarity
  rw [if_neg (by simp)]
  simp only [sumProd]
  norm_num [Real.sqrt_one]

theorem wSim : similarityList wSeg [wClip] = .ok [(2, (1 : ℝ))] := by
  have hcos2 : cosineSimilarity (wSeg.embedding.getD []) (wClip.embedding.getD []) =
      some 1 := wCos
  simp only [similarityList, hcos2]
  rfl

theorem wScore : scoreSegment wSeg [wClip] 5 = .ok [wRow] := by
  unfold scoreSegment
  rw [wSim]
  simp only [List.mergeSort_singleton]
  rfl

unseal List.merge List.mergeSort in
theorem wRun : computeMatches (fun _ => [1]) wDb 1 5 = .ok wDb2 := by
  simp only [computeMatches]
  rw [if_neg (by decide)]
  rw [show ensureSegmentsLoop (fun _ => [1]) wDb (fetchSegments wDb 1) =
    .ok (wDb, [wSeg]) from rfl]
  simp only []
  rw [show ensureClipsLoop (fun _ => [1]) wDb (fetchReadyClips wDb 1) =
    .ok (wDb, [wClip]) from rfl]
  simp only []
  show insertLoop [wClip] 5 wDb [wSeg] = .ok wDb2
  simp only [insertLoop]
  rw [wScore]
  rfl

end Matcher

unseal List.merge List.mergeSort in
/-- Witness for C5 on the concrete one-segment/one-clip store. -/
theorem computeMatches_rank_invariant_witness :
    Matcher.computeMatches (fun _ => [1]) Matcher.wDb 1 5 = .ok Matcher.wDb2 ∧
    ((Matcher.wDb2.matchRows.filter fun r => r.segment_id == 1).length =
      min 5 ((Matcher.fetchReadyClips Matcher.wDb2 1).filter
        fun c => c.embedding.isSome).length ∧
    (Matcher.wDb2.matchRows.filter fun r => r.segment_id == 1).map (fun r => r.rank) =
      List.range' 1 (Matcher.wDb2.matchRows.filter fun r => r.segment_id == 1).length ∧
    (Matcher.wDb2.matchRows.filter fun r => r.segment_id == 1).Pairwise
      fun a b => b.similarity_score ≤ a.similarity_score) :=
  ⟨Matcher.wRun,
   computeMatches_rank_invariant (fun _ => [1]) Matcher.wDb 1 5 Matcher.wDb2
     (by decide) (by decide) (by decide) (by decide) Matcher.wRun
     Matcher.wSeg (List.mem_cons_self _ _) rfl rfl⟩

/-- C6.  A successful non-trivial `computeMatches` run replaces matches
wholesale: the final match table is the old table minus every row whose
`segment_id` belongs to one of the project's segments, plus the freshly
inserted rows (which all reference the project's segments); and re-invoking
`computeMatches` on the unchanged resulting state succeeds and leaves the
match table exactly as it was — no duplicated and no residual rows. -/
theorem computeMatches_full_replacement
    (em : String → List ℝ) (db : Matcher.Db) (pid topK : Nat) (db2 : Matcher.Db)
    (hsegN : (db.segments.map fun s => s.id).Nodup)
    (hclipN : (db.clips.map fun c => c.id).Nodup)
    (hs : ¬ (Matcher.fetchSegments db pid).length = 0)
    (hc : ¬ (Matcher.fetchReadyClips db pid).length = 0)
    (hok : Matcher.computeMatches em db pid topK = .ok db2) :
    (∃ newRows : List Matcher.MatchRow,
      (∀ r ∈ newRows,
        r.segment_id ∈ (Matcher.fetchSegments db pid).map fun s => s.id) ∧
      db2.matchRows =
        (db.matchRows.filter fun m =>
          ¬ ((Matcher.fetchSegments db pid).map fun s => s.id).contains
            m.segment_id) ++ newRows) ∧
    Matcher.computeMatches em db2 pid topK = .ok db2 := by
  obtain ⟨U, V, rws, hUid, hVid, hseg2, hclip2, hfS2, hfC2, hsome2, hskip2,
    hrows2, hfa, hins⟩ :=
    Matcher.computeMatches_ok_main hsegN hclipN hs hc hok
  have hids2 : ((Matcher.fetchSegments db2 pid).map fun t => t.id) =
      (Matcher.fetchSegments db pid).map fun t => t.id := by
    rw [hfS2, List.map_map]
    exact List.map_congr_left fun x _ => hUid x
  have hflat : ∀ r ∈ rws.flatten,
      r.segment_id ∈ (Matcher.fetchSegments db pid).map fun s => s.id := by
    intro r hr
    obtain ⟨rows, hrowsm, hrmem⟩ := List.mem_flatten.mp hr
    obtain ⟨seg, hsegm, hR⟩ := Matcher.forall2_mem_right hfa rows hrowsm
    rw [(Matcher.scoreSegment_ok hR).2.2.2 r hrmem, ← hids2]
    exact List.mem_map_of_mem _ hsegm
  refine ⟨⟨rws.flatten, hflat, hrows2⟩, ?_⟩
  -- second invocation
  have hlenS : (Matcher.fetchSegments db2 pid).length =
      (Matcher.fetchSegments db pid).length := by
    rw [hfS2, List.length_map]
  have hlenC : (Matcher.fetchReadyClips db2 pid).length =
      (Matcher.fetchReadyClips db pid).length := by
    rw [hfC2, List.length_map]
  have hN2c : (db2.clips.map fun c => c.id).Nodup := by
    rw [hclip2, List.map_map,
      show (db.clips.map ((fun c => c.id) ∘ V)) = db.clips.map fun c => c.id from
        List.map_congr_left fun x _ => hVid x]
    exact hclipN
  simp only [Matcher.computeMatches]
  rw [if_neg (fun hor => Or.elim hor (fun h0 => hs (hlenS ▸ h0))
    (fun h0 => hc (hlenC ▸ h0)))]
  rw [Matcher.ensureSegmentsLoop_noop hsome2]
  simp only []
  rw [Matcher.ensureClipsLoop_noop hN2c (Matcher.fetchReadyClips_mem db2 pid) hskip2]
  simp only []
  rw [List.filter_eq_self.mpr hsome2]
  have hpos2 : ((Matcher.fetchSegments db2 pid).map fun s => s.id).length > 0 := by
    rw [List.length_map, hlenS]
    exact Nat.pos_of_ne_zero hs
  rw [if_pos hpos2]
  have hff : (db2.matchRows.filter fun m =>
      ¬ ((Matcher.fetchSegments db2 pid).map fun s => s.id).contains m.segment_id) =
      db.matchRows.filter fun m =>
        ¬ ((Matcher.fetchSegments db pid).map fun s => s.id).contains m.segment_id := by
    rw [hids2, hrows2, List.filter_append, List.filter_filter]
    have h1 : (db.matchRows.filter fun a =>
        (¬ ((Matcher.fetchSegments db pid).map fun s => s.id).contains a.segment_id : Bool) &&
        (¬ ((Matcher.fetchSegments db pid).map fun s => s.id).contains a.segment_id : Bool)) =
        db.matchRows.filter fun m =>
          ¬ ((Matcher.fetchSegments db pid).map fun s => s.id).contains m.segment_id :=
      List.filter_congr fun a _ => Bool.and_self _
    have h2 : (rws.flatten.filter fun m =>
        ¬ ((Matcher.fetchSegments db pid).map fun s => s.id).contains m.segment_id) = [] := by
      rw [List.filter_eq_nil_iff]
      intro r hr
      simp only [decide_eq_true_eq, Decidable.not_not]
      exact List.elem_eq_true_of_mem (hflat r hr)
    rw [h1, h2, List.append_nil]
  rw [hff]
  exact hins

unseal List.merge List.mergeSort in
/-- Witness for C6: on the concrete store, the run inserts rows only for the
project's segments, and a second run returns the state unchanged. -/
theorem computeMatches_full_replacement_witness :
    (∃ newRows : List Matcher.MatchRow,
      (∀ r ∈ newRows,
        r.segment_id ∈ (Matcher.fetchSegments Matcher.wDb 1).map fun s => s.id) ∧
      Matcher.wDb2.matchRows =
        (Matcher.wDb.matchRows.filter fun m =>
          ¬ ((Matcher.fetchSegments Matcher.wDb 1).map fun s => s.id).contains
            m.segment_id) ++ newRows) ∧
    Matcher.computeMatches (fun _ => [1]) Matcher.wDb2 1 5 = .ok Matcher.wDb2 :=
  computeMatches_full_replacement (fun _ => [1]) Matcher.wDb 1 5 Matcher.wDb2
    (by decide) (by decide) (by decide) (by decide) Matcher.wRun

namespace Pipeline

/-- `VIDEO_SECONDS_CAP = 5 * 60 * 60` (5 hours) from the video-processing
module. -/
def VIDEO_SECONDS_CAP : Nat := 5 * 60 * 60

/-- A `clips` row as used by the video-processing module. -/
structure ClipRow where
  id : Nat
  user_id : Nat
  project_id : Nat
  filename : String
  storage_path : String
  status : String
  duration_seconds : Option ℚ
  frames_extracted : Option Nat
  thumbnail_path : Option String
  description : Option String
  tags : List String
  error_message : Option String

/-- External-collaborator oracles for one `processClip` run: object store,
ffprobe/ffmpeg, the `profiles` row fetch (`none` models a fetch error or a
missing profile), per-frame file existence and upload outcomes, and the
vision model's per-attempt outcomes. -/
structure Env where
  downloadOk : Bool
  probeOutput : Option ℚ
  profileSeconds : Option ℚ
  extractCmdOk : Bool
  frameExists : Nat → Bool
  thumbOk : Bool
  uploadFrameOk : Nat → Bool
  uploadThumbOk : Bool
  apiKeyPresent : Bool
  tagOutcome : Nat → Except Tagger.TagError Tagger.TagResult

/-- `checkDurationCap(userId, additionalSeconds)`: when the profile fetch
errors or returns no row, allow the upload; otherwise compare the running
total plus the new duration against the cap. -/
def checkDurationCap (profileSeconds : Option ℚ) (additionalSeconds : ℚ) : Bool :=
  match profileSeconds with
  | none => true
  | some total => decide (total + additionalSeconds ≤ (VIDEO_SECONDS_CAP : ℚ))

/-- Pipeline steps, recorded in order as they start. -/
inductive Event where
  | download
  | probe
  | capCheck
  | extractFramesCmd
  | extractThumb
  | uploadFramesStep
  | uploadThumbStep
  | tagging
  | updateReady
  | addSeconds
  deriving DecidableEq

/-- `Math.ceil(duration / 2)` — the expected frame count at 1 frame per 2
seconds. -/
def numFrames (duration : ℚ) : Nat := (⌈duration / 2⌉ : ℤ).toNat

/-- The frame reconciliation scan: count which of `frame_0001.jpg` …
`frame_{numFrames+10}.jpg` actually exist on disk. -/
def countFrames (ex : Nat → Bool) (upTo : Nat) : Nat :=
  ((List.range' 1 upTo).filter ex).length

/-- Step 6: upload each extracted frame, skipping indices whose file is
missing, failing on the first failed upload; returns the uploaded storage
paths (as indices). -/
def uploadFramesList (env : Env) : List Nat → Except String (List Nat)
  | [] => .ok []
  | i :: rest =>
    if env.frameExists i then
      if env.uploadFrameOk i then
        match uploadFramesList env rest with
        | .error e => .error e
        | .ok ps => .ok (i :: ps)
      else .error "Failed to upload frame"
    else uploadFramesList env rest

/-- Steps 4–8 of `processClip` (everything after the duration-cap check):
frame extraction, thumbnail, uploads, tagging.  Returns the step outcome and
the trace of steps started. -/
def afterCap (env : Env) (duration : ℚ) :
    Except String (Nat × Tagger.TagResult) × List Event :=
  if ¬ env.extractCmdOk then (.error "Failed to extract frames", [.extractFramesCmd])
  else if ¬ env.thumbOk then
    (.error "Failed to extract thumbnail", [.extractFramesCmd, .extractThumb])
  else
    match uploadFramesList env
        (List.range' 1 (countFrames env.frameExists (numFrames duration + 10))) with
    | .error e =>
      (.error e, [.extractFramesCmd, .extractThumb, .uploadFramesStep])
    | .ok _ =>
      if ¬ env.uploadThumbOk then
        (.error "Failed to upload thumbnail",
          [.extractFramesCmd, .extractThumb, .uploadFramesStep, .uploadThumbStep])
      else
        match (Tagger.tagClip env.apiKeyPresent env.frameExists
            (countFrames env.frameExists (numFrames duration + 10))
            env.tagOutcome).result with
        | .error e =>
          (.error e.message,
            [.extractFramesCmd, .extractThumb, .uploadFramesStep,
              .uploadThumbStep, .tagging])
        | .ok tr =>
          (.ok (countFrames env.frameExists (numFrames duration + 10), tr),
            [.extractFramesCmd, .extractThumb, .uploadFramesStep,
              .uploadThumbStep, .tagging])

/-- Steps 1–8 of `processClip`'s `try` block: download, probe, cap check,
then `afterCap`. -/
def runSteps (env : Env) (clip : ClipRow) :
    Except String (ℚ × Nat × Tagger.TagResult) × List Event :=
  if ¬ env.downloadOk then
    (.error ("Failed to download " ++ clip.storage_path), [.download])
  else
    match env.probeOutput with
    | none => (.error "Could not determine video duration", [.download, .probe])
    | some duration =>
      if ¬ checkDurationCap env.profileSeconds duration then
        (.error "Video would exceed 5-hour duration cap",
          [.download, .probe, .capCheck])
      else
        match afterCap env duration with
        | (.error e, tr) => (.error e, [.download, .probe, .capCheck] ++ tr)
        | (.ok p, tr) =>
          (.ok (duration, p.1, p.2), [.download, .probe, .capCheck] ++ tr)

/-- `{userId}/{projectId}/{clipId}/thumbnail.jpg`. -/
def thumbnailStoragePath (clip : ClipRow) : String :=
  toString clip.user_id ++ "/" ++ toString clip.project_id ++ "/" ++
    toString clip.id ++ "/thumbnail.jpg"

/-- The observable outcome of one `processClip` call: the final clip row, the
re-raised error (if any), the trace of steps started, and whether the scoped
temp directory was removed. -/
structure RunResult where
  clip : ClipRow
  raised : Option String
  trace : List Event
  cleaned : Bool

/-- `processClip(clip)`: run steps 1–8; on success update the row to `ready`
with duration, frame count, thumbnail path, description and tags (then
best-effort usage increment); on any failure update the row to `error` with
the failure's message and re-raise; in both cases the `finally` block removes
the temp directory. -/
def processClip (env : Env) (clip : ClipRow) : RunResult :=
  match runSteps env clip with
  | (.ok (duration, frameCount, tr), trace) =>
    { clip := { clip with
        status := "ready"
        duration_seconds := some duration
        frames_extracted := some frameCount
        thumbnail_path := some (thumbnailStoragePath clip)
        description := some tr.description
        tags := tr.tags }
      raised := none
      trace := trace ++ [.updateReady, .addSeconds]
      cleaned := true }
  | (.error msg, trace) =>
    { clip := { clip with status := "error", error_message := some msg }
      raised := some msg
      trace := trace
      cleaned := true }

/-- Every `afterCap` trace starts with the frame-extraction step. -/
theorem afterCap_trace (env : Env) (d : ℚ) :
    Event.extractFramesCmd ∈ (afterCap env d).2 := by
  unfold afterCap
  by_cases h1 : env.extractCmdOk <;> by_cases h2 : env.thumbOk <;>
    by_cases h3 : env.uploadThumbOk <;>
      cases huf : uploadFramesList env
          (List.range' 1 (countFrames env.frameExists (numFrames d + 10))) <;>
        cases htag : (Tagger.tagClip env.apiKeyPresent env.frameExists
            (countFrames env.frameExists (numFrames d + 10))
            env.tagOutcome).result <;>
          simp [h1, h2, h3, huf, htag]

end Pipeline

namespace Pipeline

/-- Concrete clip row for pipeline witnesses. -/
def wClipRow : ClipRow :=
  ⟨1, 1, 1, "clip.mp4", "path", "processing", none, none, none, none, [], none⟩

/-- Witness environment: the user is at 17000 processed seconds and uploads a
2000-second clip, exceeding the 18000-second cap. -/
def wEnvCap : Env :=
  ⟨true, some 2000, some 17000, false, fun _ => false, false, fun _ => false,
    false, false, fun _ => .error ⟨none, "x"⟩⟩

/-- Witness environment: the download fails immediately. -/
def wEnvFail : Env :=
  ⟨false, none, none, false, fun _ => false, false, fun _ => false,
    false, false, fun _ => .error ⟨none, "x"⟩⟩

/-- Witness environment: the profile fetch fails (`none`), the probe
succeeds, extraction is reached (and then fails, which is irrelevant). -/
def wEnvOpen : Env :=
  ⟨true, some 7, none, false, fun _ => false, false, fun _ => false,
    false, false, fun _ => .error ⟨none, "x"⟩⟩

end Pipeline

/-- C7.  When the stored profile reports `t` processed seconds and the probed
duration `d` satisfies `t + d > 18000`, `processClip` raises the cap error
before frame extraction ever starts, and the clip row ends in `status =
"error"` with the (non-empty) cap message as `error_message`. -/
theorem processClip_duration_cap
    (env : Pipeline.Env) (clip : Pipeline.ClipRow) (t d : ℚ)
    (hdl : env.downloadOk = true) (hprobe : env.probeOutput = some d)
    (hprof : env.profileSeconds = some t)
    (hcap : (Pipeline.VIDEO_SECONDS_CAP : ℚ) < t + d) :
    (Pipeline.processClip env clip).raised =
      some "Video would exceed 5-hour duration cap" ∧
    Pipeline.Event.extractFramesCmd ∉ (Pipeline.processClip env clip).trace ∧
    (Pipeline.processClip env clip).clip.status = "error" ∧
    (Pipeline.processClip env clip).clip.error_message =
      some "Video would exceed 5-hour duration cap" ∧
    (Pipeline.processClip env clip).clip.error_message ≠ some "" := by
  have hchk : Pipeline.checkDurationCap env.profileSeconds d = false := by
    rw [hprof]
    simp only [Pipeline.checkDurationCap, decide_eq_false_iff_not]
    exact not_le.mpr hcap
  have hrun : Pipeline.runSteps env clip =
      (.error "Video would exceed 5-hour duration cap",
        [.download, .probe, .capCheck]) := by
    unfold Pipeline.runSteps
    rw [if_neg (by simp [hdl]), hprobe]
    simp only [hchk, Bool.false_eq_true, not_false_eq_true, if_true, reduceIte]
  have hproc : Pipeline.processClip env clip =
      { clip := { clip with
          status := "error"
          error_message := some "Video would exceed 5-hour duration cap" }
        raised := some "Video would exceed 5-hour duration cap"
        trace := [.download, .probe, .capCheck]
        cleaned := true } := by
    unfold Pipeline.processClip
    rw [hrun]
  refine ⟨by rw [hproc], ?_, by rw [hproc], by rw [hproc], ?_⟩
  · rw [hproc]
    show Pipeline.Event.extractFramesCmd ∉
      [Pipeline.Event.download, Pipeline.Event.probe, Pipeline.Event.capCheck]
    decide
  · rw [hproc]
    show some "Video would exceed 5-hour duration cap" ≠ some ""
    decide

/-- Witness for C7 at `t = 17000`, `d = 2000`. -/
theorem processClip_duration_cap_witness :
    (Pipeline.processClip Pipeline.wEnvCap Pipeline.wClipRow).raised =
      some "Video would exceed 5-hour duration cap" ∧
    Pipeline.Event.extractFramesCmd ∉
      (Pipeline.processClip Pipeline.wEnvCap Pipeline.wClipRow).trace ∧
    (Pipeline.processClip Pipeline.wEnvCap Pipeline.wClipRow).clip.status = "error" ∧
    (Pipeline.processClip Pipeline.wEnvCap Pipeline.wClipRow).clip.error_message =
      some "Video would exceed 5-hour duration cap" ∧
    (Pipeline.processClip Pipeline.wEnvCap Pipeline.wClipRow).clip.error_message ≠
      some "" :=
  processClip_duration_cap Pipeline.wEnvCap Pipeline.wClipRow 17000 2000
    rfl rfl rfl (by norm_num [Pipeline.VIDEO_SECONDS_CAP])

/-- C8.  `processClip` always removes its scoped temp directory, and on every
failing run (any step 1–8, tagging included) the raised error `e` is recorded
on the clip row: `status = "error"` (hence never `"ready"`) and
`error_message = some e`, with `e` re-raised to the caller. -/
theorem processClip_error_paths (env : Pipeline.Env) (clip : Pipeline.ClipRow) :
    (Pipeline.processClip env clip).cleaned = true ∧
    (∀ e, (Pipeline.processClip env clip).raised = some e →
      (Pipeline.processClip env clip).clip.status = "error" ∧
      (Pipeline.processClip env clip).clip.error_message = some e ∧
      (Pipeline.processClip env clip).clip.status ≠ "ready") := by
  cases hrun : Pipeline.runSteps env clip with
  | mk res trace =>
    cases res with
    | ok v =>
      obtain ⟨d, p⟩ := v
      obtain ⟨fc, tr⟩ := p
      unfold Pipeline.processClip
      rw [hrun]
      exact ⟨rfl, fun e h => absurd h (by simp)⟩
    | error msg =>
      unfold Pipeline.processClip
      rw [hrun]
      refine ⟨rfl, fun e h => ?_⟩
      simp only [Option.some.injEq] at h
      subst h
      have hne : ("error" : String) ≠ "ready" := by decide
      exact ⟨rfl, rfl, hne⟩

/-- Witness for C8 on a failing download. -/
theorem processClip_error_paths_witness :
    (Pipeline.processClip Pipeline.wEnvFail Pipeline.wClipRow).cleaned = true ∧
    (Pipeline.processClip Pipeline.wEnvFail Pipeline.wClipRow).raised =
      some "Failed to download path" ∧
    (Pipeline.processClip Pipeline.wEnvFail Pipeline.wClipRow).clip.status = "error" ∧
    (Pipeline.processClip Pipeline.wEnvFail Pipeline.wClipRow).clip.error_message =
      some "Failed to download path" ∧
    (Pipeline.processClip Pipeline.wEnvFail Pipeline.wClipRow).clip.status ≠ "ready" := by
  have h := processClip_error_paths Pipeline.wEnvFail Pipeline.wClipRow
  have hr : (Pipeline.processClip Pipeline.wEnvFail Pipeline.wClipRow).raised =
      some "Failed to download path" := rfl
  exact ⟨h.1, hr, (h.2 _ hr).1, (h.2 _ hr).2.1, (h.2 _ hr).2.2⟩

/-- C10.  The duration-cap check fails open: with a missing profile row (or a
failed profile fetch) `checkDurationCap` returns `true` for every duration,
and the pipeline proceeds into frame extraction as if the cap were
satisfied. -/
theorem checkDurationCap_fails_open :
    (∀ d : ℚ, Pipeline.checkDurationCap none d = true) ∧
    (∀ (env : Pipeline.Env) (clip : Pipeline.ClipRow) (d : ℚ),
      env.profileSeconds = none → env.downloadOk = true →
      env.probeOutput = some d →
      Pipeline.Event.extractFramesCmd ∈ (Pipeline.processClip env clip).trace) := by
  refine ⟨fun d => rfl, ?_⟩
  intro env clip d hprof hdl hprobe
  have hrun : Pipeline.runSteps env clip =
      ((Pipeline.afterCap env d).1.map fun p => (d, p.1, p.2),
        [.download, .probe, .capCheck] ++ (Pipeline.afterCap env d).2) := by
    unfold Pipeline.runSteps
    rw [if_neg (by simp [hdl]), hprobe, hprof]
    simp only [Pipeline.checkDurationCap, not_true_eq_false, Bool.not_eq_true,
      if_false, reduceIte]
    cases hac : Pipeline.afterCap env d with
    | mk res tr => cases res <;> simp [Except.map]
  unfold Pipeline.processClip
  rw [hrun]
  cases hres : (Pipeline.afterCap env d).1 with
  | error e =>
    simp only [hres, Except.map]
    exact List.mem_append_right _ (Pipeline.afterCap_trace env d)
  | ok p =>
    simp only [hres, Except.map]
    exact List.mem_append_left _ (List.mem_append_right _ (Pipeline.afterCap_trace env d))

/-- Witness for C10 on a concrete environment with a missing profile. -/
theorem checkDurationCap_fails_open_witness :
    Pipeline.checkDurationCap none 7 = true ∧
    Pipeline.Event.extractFramesCmd ∈
      (Pipeline.processClip Pipeline.wEnvOpen Pipeline.wClipRow).trace :=
  ⟨checkDurationCap_fails_open.1 7,
   checkDurationCap_fails_open.2 Pipeline.wEnvOpen Pipeline.wClipRow 7 rfl rfl rfl⟩
